import Mathlib

/-!
Shallow embedding of the `TypescriptExtractor` core
(`src/extractor/index.ts`) together with the path utilities of
`util.ts`, and proofs about the embedded operations.

Modelling conventions:
* JavaScript strings are modelled as Lean `String`; `s.length`,
  `s.slice`, `s.substring` and `s.lastIndexOf` are modelled on the
  character list `s.data`.
* `undefined`-able values are modelled as `Option`; a JavaScript
  template literal renders `none` as the text `"undefined"` exactly as
  `${x}` does.
* The mutable object graph of `Module` values (which are aliased
  between `namespaceCache`, `moduleCache` and the `modules` maps of
  their parents) is modelled as a heap: module identifiers are natural
  numbers, and the extractor state carries a store mapping identifiers
  to module records.
* `Map<string, T>` and object-as-dictionary `Record<string, T>` values
  are modelled as insertion-ordered association lists (`Map.set`
  updates an existing key in place, keeping its position, and appends
  otherwise); prototype-chain effects of plain-object dictionaries are
  outside the model.
* Answers of the external type checker (`checker.getSymbolAtLocation`,
  `checker.getSignatureFromDeclaration` / return-type inference,
  `ts.getJSDocParameterTags`) are baked into the syntax nodes they are
  asked about, and the external `ReferenceManager` is an injected
  record of functions, matching the spec's narrow-interface view.
-/

set_option linter.unusedVariables false

namespace TSE

/-! ## JavaScript string primitives -/

/-- JavaScript `s.length` (character count of the model string). -/
def jsLength (s : String) : Nat := s.data.length

/-- JavaScript `s.slice(0, n)`: the first `n` characters. -/
def jsSlice0 (s : String) (n : Nat) : String := ⟨s.data.take n⟩

/-- JavaScript `s.substring(n)` for a non-negative clamped index `n`. -/
def jsSubstringFrom (s : String) (n : Nat) : String := ⟨s.data.drop n⟩

private def lastIndexOfAux (cs : List Char) (c : Char) (i : Nat) (best : Option Nat) : Option Nat :=
  match cs with
  | [] => best
  | x :: xs => lastIndexOfAux xs c (i + 1) (if x = c then some i else best)

/-- JavaScript `s.lastIndexOf(c)`: the last index of `c`, `-1` when absent. -/
def jsLastIndexOf (s : String) (c : Char) : Int :=
  match lastIndexOfAux s.data c 0 none with
  | none => -1
  | some i => (i : Int)

/-- `util.ts`: `getLastItemFromPath(path, offset = 1)` returns
`path.substring(path.lastIndexOf("\\") + offset)`; a negative start index is
clamped to `0` as JavaScript `substring` does. -/
def getLastItemFromPath (path : String) (offset : Int := 1) : String :=
  jsSubstringFrom path (jsLastIndexOf path '\\' + offset).toNat

/-- Rendering of a `string | undefined` value inside a template literal:
`undefined` prints as the text `"undefined"`. -/
def jsTemplateStr : Option String → String
  | none => "undefined"
  | some s => s

/-- JavaScript `x && y` for `x : string | undefined` and a string `y`:
`undefined` and the empty string are falsy and returned unchanged, any other
string yields `y`. -/
def jsAndStr : Option String → String → Option String
  | none, _ => none
  | some s, y => if s = "" then some "" else some y

/-- JavaScript `x || d` for an optional name text (used for
`node.name?.text || "export default"`): `undefined` and `""` both fall back. -/
def jsOrDefault (t : Option String) (d : String) : String :=
  match t with
  | none => d
  | some s => if s = "" then d else s

/-- Modelled from the spec: `hasBit` from `util` (the file is not under
`src/`); it tests whether all bits of `bit` are set in `bits`, which is how
the extractor checks `ts.SymbolFlags` membership. -/
def hasBit (bits bit : Nat) : Bool := bits &&& bit == bit

/-- `ts.SymbolFlags.TypeParameter` of the external compiler API. -/
def symbolFlagTypeParameter : Nat := 262144

/-- `ts.SymbolFlags.EnumMember` of the external compiler API. -/
def symbolFlagEnumMember : Nat := 8

/-- `ts.SymbolFlags.Module` of the external compiler API. -/
def symbolFlagModule : Nat := 1536

/-! ## Kind enumerations (`../structure`, reconstructed from their uses) -/

/-- The tags of the `Type` tagged union (`TypeKinds` in `../structure`);
exactly the tags `src/extractor/index.ts` produces. -/
inductive TypeKinds where
  | REFERENCE | ARROW_FUNCTION | OBJECT_LITERAL | UNION | INTERSECTION | TUPLE
  | UNIQUE_OPERATOR | KEYOF_OPERATOR | READONLY_OPERATOR | ARRAY_TYPE
  | NUMBER | STRING | BOOLEAN | TRUE | FALSE | UNDEFINED | NULL | VOID | ANY | UNKNOWN
  | NUMBER_LITERAL | STRING_LITERAL | STRINGIFIED_UNKNOWN
  deriving DecidableEq, Repr

/-- The reference-kind tags used by the extractor (`TypeReferenceKinds`). -/
inductive TypeReferenceKinds where
  | STRINGIFIED_UNKNOWN | DEFAULT_API | ENUM_MEMBER | OTHER_REFERENCE
  deriving DecidableEq, Repr

/-! ## External checker and reference-manager interfaces -/

/-- A `ts.Symbol` as the extractor consumes it: its name, flag bits, and —
for the enum-member test `symbol.valueDeclaration &&
ts.isEnumDeclaration(symbol.valueDeclaration.parent)` — the name of the
enclosing enum declaration when that test succeeds. -/
structure Symbol where
  name : String
  flags : Nat
  parentEnumName : Option String := none
  deriving DecidableEq, Repr

/-- The payload stored in the `type` field of a `REFERENCE`-kind `Type`:
a name, reference kind, and the optional display name, module path and
externality data that `ReferenceManager.resolveSymbol` supplies. -/
structure ReferenceType where
  name : String
  kind : TypeReferenceKinds
  displayName : Option String := none
  path : Option (List String) := none
  external : Option Bool := none
  deriving DecidableEq, Repr

/-- The injected `ReferenceManager` capability: `resolveSymbol` over a
`ts.Symbol | string` with an optional qualifying module name, and
`isDefault` over an identifier's text. -/
structure RefManager where
  resolveSymbolOf : Symbol ⊕ String → Option String → Option ReferenceType
  isDefault : String → Bool

/-! ## Syntax-node model -/

/-- Modifier keywords tested by the extractor. -/
inductive Modifier where
  | exportKw | abstractKw | constKw | staticKw | privateKw | protectedKw
  | readonlyKw | declareKw | otherModifier
  deriving DecidableEq, Repr

/-- An entity name (`type.typeName`): an identifier or a qualified name;
the qualified form carries `left.getText()` and `right.text`. -/
inductive EntityName where
  | ident (text : String)
  | qualified (leftText : String) (rightText : String)
  deriving DecidableEq, Repr

/-- The three operator tokens a `ts.TypeOperatorNode` can carry (the
compiler API types `operator` as exactly these three keywords). -/
inductive OperatorKeyword where
  | uniqueKeyword | keyofKeyword | readonlyKeyword
  deriving DecidableEq, Repr

/-- The primitive/literal keyword kinds enumerated by `resolveType`'s
trailing `switch` (other keywords such as `never` are *not* recognized and
reach the resolver only as unenumerated nodes). -/
inductive KeywordKind where
  | numberKw | stringKw | booleanKw | trueKw | falseKw
  | undefinedKw | nullKw | voidKw | anyKw | unknownKw
  deriving DecidableEq, Repr

mutual

/-- A type-syntax node as dispatched on by `resolveType`. Constructors
carry the checker answers queried at that node (`symbol`) and, where the
code may call `getText()` on the node, its raw source text. `other` models
every syntactic form that is not one of the explicitly enumerated forms
(for example conditional, mapped, indexed-access, template-literal or
`typeof` types, or unrecognized keywords such as `never`), tagged with the
name of its `ts.SyntaxKind` and its raw source text. -/
inductive TypeNode where
  | typeReference (typeName : EntityName) (symbol : Option Symbol)
      (typeArguments : Option (List TypeNode)) (text : String)
  | functionType (typeParameters : Option (List TypeParameterDecl))
      (parameters : List ParameterDecl) (returnTypeNode : TypeNode)
  | typeLiteral (members : List TypeElement)
  | unionType (types : List TypeNode)
  | intersectionType (types : List TypeNode)
  | tupleType (elements : List TypeNode)
  | typeOperator (operator : OperatorKeyword) (type : TypeNode)
  | arrayType (elementType : TypeNode)
  | parenthesizedType (type : TypeNode)
  | thisType (symbol : Option Symbol) (text : String)
  | literalType (literal : TypeNode)
  | keyword (kw : KeywordKind)
  | numericLiteral (text : String)
  | bigintLiteral (text : String)
  | stringLiteral (text : String)
  | other (syntaxKindName : String) (text : String)

/-- A `ts.TypeParameterDeclaration`: name, optional default, optional
constraint (`defaultNode` models the `default` field). -/
inductive TypeParameterDecl where
  | mk (name : String) (defaultNode : Option TypeNode) (constraint : Option TypeNode)

/-- A `ts.ParameterDeclaration`. `isIdentifierName` models
`ts.isIdentifier(param.name)`, `nameText` the name's text; `paramTag`
models `ts.getJSDocParameterTags(node)[0]` — `none` when no tag exists,
`some c` when a tag with comment text `c` exists. -/
inductive ParameterDecl where
  | mk (isIdentifierName : Bool) (nameText : String) (questionToken : Bool)
      (dotDotDotToken : Bool) (type : Option TypeNode)
      (initializer : Option Expression) (paramTag : Option (Option String))

/-- A member of a type literal or interface body, as consumed by
`resolveProperty`: a property signature, or an index-signature form whose
first parameter is `param` (index signatures always carry exactly one
parameter). -/
inductive TypeElement where
  | propertySig (nameText : String) (type : Option TypeNode)
      (questionToken : Bool) (modifiers : Option (List Modifier))
  | indexSig (param : ParameterDecl) (type : TypeNode) (pos : Nat) (endPos : Nat)

/-- An expression as consumed by `resolveExpressionToType`,
`resolveHeritage` and variable initializers. `propertyAccess` carries the
checker's `getSymbolAtLocation(exp.expression)` answer. -/
inductive Expression where
  | ident (text : String)
  | propertyAccess (expression : Expression) (name : String) (symbolAtExpr : Option Symbol)
  | newExpr (callee : Expression) (typeArguments : Option (List TypeNode))
  | numericLit (text : String)
  | bigintLit (text : String)
  | stringLit (text : String)
  | trueKw | falseKw | nullKw | undefinedKw
  | otherExpr (text : String)

end

/-- `exp.getText()`: raw text of an expression (composite forms rebuild the
source text from their parts). -/
def exprText : Expression → String
  | .ident t => t
  | .propertyAccess e n _ => exprText e ++ "." ++ n
  | .newExpr e _ => "new " ++ exprText e
  | .numericLit t => t
  | .bigintLit t => t
  | .stringLit t => t
  | .trueKw => "true"
  | .falseKw => "false"
  | .nullKw => "null"
  | .undefinedKw => "undefined"
  | .otherExpr t => t

/-! ## The `Type` value model

One constructor per object shape the resolver produces; the `kind` tag of
the source object is determined by the constructor (`plain` carries the
`{ name, kind }` shapes, `unknownNoName` the bare `{ kind: UNKNOWN }`). -/

/-- The `jsDoc: { comment }` object attached to a resolved parameter. -/
structure ParamJSDoc where
  comment : Option String
  deriving DecidableEq, Repr

mutual

/-- A resolved `Type` value. -/
inductive Type' where
  | reference (type : ReferenceType) (typeParameters : Option (List Type'))
  | arrowFunction (typeParameters : Option (List TypeParameter))
      (returnType : Type') (parameters : List FunctionParameter)
  | objectLiteral (properties : List Property)
  | union (types : List Type')
  | intersection (types : List Type')
  | tuple (types : List Type')
  | operator (kind : TypeKinds) (type : Type')
  | array (type : Type')
  | plain (name : String) (kind : TypeKinds)
  | unknownNoName

/-- A resolved type parameter (`defaultT` models the `default` field). -/
inductive TypeParameter where
  | mk (name : String) (defaultT : Option Type') (constraint : Option Type')

/-- A resolved function parameter. -/
inductive FunctionParameter where
  | mk (name : String) (isOptional : Bool) (rest : Bool) (type : Option Type')
      (defaultValue : Option Type') (jsDoc : ParamJSDoc)

/-- A resolved interface/object-literal member: either an
`InterfaceProperty` or an `IndexSignatureDeclaration`. -/
inductive Property where
  | propertySignature (name : String) (type : Option Type') (isOptional : Bool)
      (isReadonly : Option Bool)
  | indexSignature (key : Option Type') (type : Type') (start : Nat) (endPos : Nat)

end

/-! ## Symbol resolution -/

/-- `resolveSymbol(symbol, typeParameters?, moduleName?)`: type-parameter
symbols become self-named stringified-unknown references; enum-member
symbols resolve their parent enum through the reference manager; otherwise
the reference manager is consulted with the symbol and module hint, falling
back to a named `UNKNOWN` type. -/
def resolveSymbol (refs : RefManager) (symbol : Symbol ⊕ String)
    (typeParameters : Option (List Type') := none)
    (moduleName : Option String := none) : Type' :=
  let tail : Type' :=
    match refs.resolveSymbolOf symbol moduleName with
    | some symbolRef => .reference symbolRef typeParameters
    | none => .plain (match symbol with | .inl sym => sym.name | .inr s => s) .UNKNOWN
  match symbol with
  | .inl sym =>
    if hasBit sym.flags symbolFlagTypeParameter then
      .reference { name := sym.name, kind := .STRINGIFIED_UNKNOWN } typeParameters
    else
      match (if hasBit sym.flags symbolFlagEnumMember then sym.parentEnumName else none) with
      | some parentName =>
        match refs.resolveSymbolOf (.inr parentName) none with
        | none => .unknownNoName
        | some thing =>
          .reference { displayName := some sym.name, name := thing.name,
                       path := thing.path, external := thing.external,
                       kind := .ENUM_MEMBER } none
      | none => tail
  | .inr _ => tail

/-- The trailing `switch` of `resolveExpressionToType` (literal forms map to
literal types, everything else to stringified-unknown with its raw text). -/
def expressionSwitch : Expression → Type'
  | .numericLit t => .plain t .NUMBER_LITERAL
  | .bigintLit t => .plain t .NUMBER_LITERAL
  | .falseKw => .plain "false" .FALSE
  | .trueKw => .plain "true" .TRUE
  | .stringLit t => .plain t .STRING_LITERAL
  | .nullKw => .plain "null" .NULL
  | .undefinedKw => .plain "undefined" .UNDEFINED
  | e => .plain (exprText e) .STRINGIFIED_UNKNOWN

/-! ## The type resolver -/

mutual

/-- `resolveType`: dispatch on the syntactic form of a type node per
`src/extractor/index.ts` lines 363-461. -/
def resolveType (refs : RefManager) : TypeNode → Type'
  | .typeReference typeName symbol typeArguments text =>
    let typeParameters := resolveTypeArgs refs typeArguments
    match symbol with
    | none =>
      match typeName with
      | .ident idText =>
        if refs.isDefault idText then
          .reference { name := idText, kind := .DEFAULT_API } typeParameters
        else
          .reference { name := text, kind := .STRINGIFIED_UNKNOWN } typeParameters
      | .qualified _ _ =>
        .reference { name := text, kind := .STRINGIFIED_UNKNOWN } typeParameters
    | some sym =>
      match typeName with
      | .qualified leftText rightText =>
        if sym.name = "unknown" then
          resolveSymbol refs (.inr rightText) typeParameters (some leftText)
        else
          resolveSymbol refs (.inl sym) typeParameters none
      | .ident _ => resolveSymbol refs (.inl sym) typeParameters none
  | .functionType typeParameters parameters returnTypeNode =>
    .arrowFunction (resolveGenericsArgs refs typeParameters)
      (resolveType refs returnTypeNode) (resolveParameterList refs parameters)
  | .typeLiteral members => .objectLiteral (resolvePropertyList refs members)
  | .unionType types => .union (resolveTypeList refs types)
  | .intersectionType types => .intersection (resolveTypeList refs types)
  | .tupleType elements => .tuple (resolveTypeList refs elements)
  | .typeOperator op t =>
    let kind := match op with
      | .uniqueKeyword => TypeKinds.UNIQUE_OPERATOR
      | .keyofKeyword => TypeKinds.KEYOF_OPERATOR
      | .readonlyKeyword => TypeKinds.READONLY_OPERATOR
    .operator kind (resolveType refs t)
  | .arrayType elementType => .array (resolveType refs elementType)
  | .parenthesizedType t => resolveType refs t
  | .thisType symbol text =>
    match symbol with
    | none => .plain text .STRINGIFIED_UNKNOWN
    | some sym => resolveSymbol refs (.inl sym) none none
  | .literalType lit => resolveType refs lit
  | .keyword kw =>
    match kw with
    | .numberKw => .plain "number" .NUMBER
    | .stringKw => .plain "string" .STRING
    | .booleanKw => .plain "boolean" .BOOLEAN
    | .trueKw => .plain "true" .TRUE
    | .falseKw => .plain "false" .FALSE
    | .undefinedKw => .plain "undefined" .UNDEFINED
    | .nullKw => .plain "null" .NULL
    | .voidKw => .plain "void" .VOID
    | .anyKw => .plain "any" .ANY
    | .unknownKw => .plain "unknown" .UNKNOWN
  | .numericLiteral text => .plain text .NUMBER_LITERAL
  | .bigintLiteral text => .plain text .NUMBER_LITERAL
  | .stringLiteral text => .plain text .STRING_LITERAL
  | .other _ text => .plain text .STRINGIFIED_UNKNOWN

/-- `types.map(t => this.resolveType(t))`. -/
def resolveTypeList (refs : RefManager) : List TypeNode → List Type'
  | [] => []
  | t :: ts => resolveType refs t :: resolveTypeList refs ts

/-- `typeArguments && typeArguments.map(arg => this.resolveType(arg))`. -/
def resolveTypeArgs (refs : RefManager) : Option (List TypeNode) → Option (List Type')
  | none => none
  | some args => some (resolveTypeList refs args)

/-- `resolveGenerics`: a type-parameter declaration with its optional
default and constraint resolved. -/
def resolveGenerics (refs : RefManager) : TypeParameterDecl → TypeParameter
  | .mk name defaultNode constraint =>
    .mk name
      (match defaultNode with
       | some d => some (resolveType refs d)
       | none => none)
      (match constraint with
       | some c => some (resolveType refs c)
       | none => none)

/-- `typeParameters.map(p => this.resolveGenerics(p))`. -/
def resolveGenericsList (refs : RefManager) : List TypeParameterDecl → List TypeParameter
  | [] => []
  | p :: ps => resolveGenerics refs p :: resolveGenericsList refs ps

/-- `typeParameters && typeParameters.map(p => this.resolveGenerics(p))`. -/
def resolveGenericsArgs (refs : RefManager) :
    Option (List TypeParameterDecl) → Option (List TypeParameter)
  | none => none
  | some ps => some (resolveGenericsList refs ps)

/-- `resolveParameter`: parameter name (or `"__namedParameters"` for
binding patterns), optionality, rest flag, resolved declared type, resolved
default value, and the parameter's own JSDoc comment. -/
def resolveParameter (refs : RefManager) : ParameterDecl → FunctionParameter
  | .mk isIdentifierName nameText questionToken dotDotDotToken ty init paramTag =>
    .mk (if isIdentifierName then nameText else "__namedParameters")
      questionToken dotDotDotToken
      (match ty with
       | some t => some (resolveType refs t)
       | none => none)
      (match init with
       | some e => some (resolveExpressionToType refs e)
       | none => none)
      { comment := match paramTag with | none => none | some c => c }

/-- `parameters.map(p => this.resolveParameter(p))`. -/
def resolveParameterList (refs : RefManager) : List ParameterDecl → List FunctionParameter
  | [] => []
  | p :: ps => resolveParameter refs p :: resolveParameterList refs ps

/-- `resolveExpressionToType`: `new X(...)` with an identifier callee maps
to a reference to `X`; a property access whose left side carries a
module-flagged symbol maps to a qualified reference; anything else goes
through the literal `switch` (every branch of which returns a value). -/
def resolveExpressionToType (refs : RefManager) : Expression → Type'
  | .newExpr callee typeArguments =>
    match callee with
    | .ident t => resolveSymbol refs (.inr t) (resolveTypeArgs refs typeArguments) none
    | c => expressionSwitch (.newExpr c typeArguments)
  | .propertyAccess obj nm symbolAtExpr =>
    match symbolAtExpr with
    | some leftSym =>
      if hasBit leftSym.flags symbolFlagModule then
        resolveSymbol refs (.inl leftSym) none (some nm)
      else expressionSwitch (.propertyAccess obj nm (some leftSym))
    | none => expressionSwitch (.propertyAccess obj nm none)
  | e => expressionSwitch e

/-- `resolveProperty`: a property signature resolves its declared type and
flags; any other member is treated as an index signature (`key` from the
first parameter's type, `type` from the declaration's type). -/
def resolveProperty (refs : RefManager) : TypeElement → Property
  | .propertySig nameText ty questionToken modifiers =>
    .propertySignature nameText
      (match ty with
       | some t => some (resolveType refs t)
       | none => none)
      questionToken
      (match modifiers with
       | none => none
       | some ms => some (ms.any (· = .readonlyKw)))
  | .indexSig (.mk _ _ _ _ paramType _ _) ty pos endPos =>
    .indexSignature
      (match paramType with
       | some t => some (resolveType refs t)
       | none => none)
      (resolveType refs ty) pos endPos

/-- `members.map(p => this.resolveProperty(p))`. -/
def resolvePropertyList (refs : RefManager) : List TypeElement → List Property
  | [] => []
  | m :: ms => resolveProperty refs m :: resolvePropertyList refs ms

end

/-! ## Heritage and return-type resolution -/

/-- A `ts.ExpressionWithTypeArguments` (a heritage-clause target). -/
structure ExpressionWithTypeArgs where
  expression : Expression
  typeArguments : Option (List TypeNode) := none
  text : String

/-- `resolveHeritage`: `A.B` resolves the left text as a symbol qualified
by the member name; a bare identifier resolves directly; any other
expression falls back to a stringified-unknown reference with its raw
text. -/
def resolveHeritage (refs : RefManager) (p : ExpressionWithTypeArgs) : Type' :=
  match p.expression with
  | .propertyAccess obj nm _ =>
    resolveSymbol refs (.inr (exprText obj)) (resolveTypeArgs refs p.typeArguments) (some nm)
  | .ident t =>
    resolveSymbol refs (.inr t) (resolveTypeArgs refs p.typeArguments) none
  | e =>
    .reference { name := exprText e, kind := .STRINGIFIED_UNKNOWN }
      (resolveTypeArgs refs p.typeArguments)

/-- One inferred type argument of a checker-inferred return type: the
symbol `t.getSymbol()` reports for it, if any. -/
structure InferredArg where
  symbol : Option Symbol

/-- The checker-inferred return type of a signature: its symbol (if any)
and its `resolvedTypeArguments` (if any). -/
structure InferredRet where
  symbol : Option Symbol
  resolvedTypeArguments : Option (List InferredArg) := none

/-- What `checker.getSignatureFromDeclaration` followed by
`checker.getReturnTypeOfSignature` yields for a function-like node:
`returnTypeOf = none` models a signature without a usable return type. -/
structure InferredSignature where
  returnTypeOf : Option InferredRet

/-- `resolveReturnType`: an explicit annotation wins; otherwise the
checker's inferred signature/return type/symbol chain is followed, each
missing link yielding an absent return type; inferred type arguments
without a symbol become `{ kind: ANY, name: "any" }`. -/
def resolveReturnType (refs : RefManager) (typeAnn : Option TypeNode)
    (sig : Option InferredSignature) : Option Type' :=
  match typeAnn with
  | some t => some (resolveType refs t)
  | none =>
    match sig with
    | none => none
    | some s =>
      match s.returnTypeOf with
      | none => none
      | some ty =>
        match ty.symbol with
        | none => none
        | some sym =>
          some (resolveSymbol refs (.inl sym)
            (match ty.resolvedTypeArguments with
             | none => none
             | some args => some (args.map fun a =>
                 match a.symbol with
                 | none => Type'.plain "any" .ANY
                 | some s2 => resolveSymbol refs (.inl s2) none none))
            none)

/-! ## JSDoc extraction -/

/-- A raw JSDoc tag node (`comment` models
`ts.getTextOfJSDocComment(tag.comment)`, `argName` the tag's optional
associated name, `typeExpression` the type inside the tag's
`JSDocTypeExpression` when present). -/
structure JSDocTagNode where
  tagName : String
  comment : Option String := none
  argName : Option String := none
  typeExpression : Option TypeNode := none

/-- A raw JSDoc block attached to a node (`node.jsDoc` element). -/
structure JSDocNode where
  comment : Option String := none
  tags : Option (List JSDocTagNode) := none

/-- An extracted JSDoc tag record. -/
structure JSDocTag where
  name : String
  comment : Option String
  arg : Option String
  type : Option Type'

/-- An extracted JSDoc block. -/
structure JSDocData where
  comment : Option String
  tags : Option (List JSDocTag)

/-- `getJSDocData`: absent or empty `node.jsDoc` yields `undefined`;
otherwise each block is mapped to its comment and (when present) tag
records, resolving a tag's type expression through the type resolver. -/
def getJSDocData (refs : RefManager) (jsDoc : List JSDocNode) : Option (List JSDocData) :=
  if jsDoc.isEmpty then none
  else some (jsDoc.map fun currentDoc =>
    { comment := currentDoc.comment,
      tags := match currentDoc.tags with
        | none => none
        | some tags => some (tags.map fun tag =>
            { name := tag.tagName, comment := tag.comment, arg := tag.argName,
              type := tag.typeExpression.map fun te => resolveType refs te }) })

/-! ## Locations and declaration records -/

/-- A zero-based line/character pair
(`sourceFile.getLineAndCharacterOfPosition(node.getStart())`). -/
structure LineCol where
  line : Nat
  character : Nat
  deriving DecidableEq, Repr

/-- A `Loc`: position plus optional source-locator string. -/
structure Loc where
  pos : LineCol
  sourceFile : Option String
  deriving DecidableEq, Repr

/-- A resolved constant declaration. -/
structure ConstantDecl where
  name : String
  loc : Loc
  type : Option Type'
  content : String
  jsDoc : Option (List JSDocData)

/-- One call signature of a function declaration (the `obj` built by
`handleFunctionDeclaration`). -/
structure FunctionSignature where
  name : Option String
  parameters : List FunctionParameter
  typeParameters : Option (List TypeParameter)
  returnType : Option Type'
  loc : Loc
  jsDoc : Option (List JSDocData)

/-- A function declaration entry: one entry per name, holding every
overload's signature. -/
structure FunctionDecl where
  name : String
  signatures : List FunctionSignature
  loc : Loc
  jsDoc : Option (List JSDocData)

/-- One signature of a class method/accessor (getter signatures carry no
parameter list, setter signatures no type parameters). -/
structure MethodSignature where
  returnType : Option Type'
  typeParameters : Option (List TypeParameter) := none
  parameters : Option (List FunctionParameter) := none
  loc : Loc
  jsDoc : Option (List JSDocData)

/-- A class method entry (merged overloads, or a flagged accessor). -/
structure ClassMethod where
  name : String
  loc : Loc
  isPrivate : Option Bool := none
  isProtected : Option Bool := none
  isStatic : Option Bool := none
  isAbstract : Option Bool := none
  jsDoc : Option (List JSDocData)
  signatures : List MethodSignature
  isGetter : Option Bool := none
  isSetter : Option Bool := none

/-- A class property entry. -/
structure ClassProperty where
  name : String
  type : Option Type'
  loc : Loc
  isOptional : Bool
  isPrivate : Option Bool := none
  isProtected : Option Bool := none
  isStatic : Option Bool := none
  isReadonly : Option Bool := none
  isAbstract : Option Bool := none
  jsDoc : Option (List JSDocData)

/-- The captured constructor of a class (parameter list only); models the
`constructor` field of `ClassDecl`. -/
structure ClassObjectConstructor where
  parameters : List FunctionParameter

/-- A class declaration entry (skeleton at Prepare time, filled at Visit
time); `ctor` models the source's `constructor` field. -/
structure ClassDecl where
  name : String
  typeParameters : Option (List TypeParameter)
  properties : List ClassProperty
  methods : List ClassMethod
  loc : Loc
  ctor : Option ClassObjectConstructor
  isAbstract : Option Bool
  jsDoc : Option (List JSDocData)
  isExported : Option Bool
  extendsRef : Option Type' := none
  implementsRefs : Option (List Type') := none

/-- An interface declaration entry; `loc` is an accumulating list. -/
structure InterfaceDecl where
  name : String
  typeParameters : Option (List TypeParameter)
  loc : List Loc
  properties : List Property
  jsDoc : Option (List JSDocData)
  isExported : Option Bool
  extendsRef : Option Type' := none
  implementsRefs : Option (List Type') := none

/-- One enum member (name, optional resolved initializer, location). -/
structure EnumMemberDecl where
  name : String
  initializer : Option Type'
  loc : Loc

/-- An enum declaration entry; `loc` and `members` are accumulating lists;
`isConst` models the source's `const` field. -/
structure EnumDecl where
  name : String
  isConst : Bool
  members : List EnumMemberDecl
  loc : List Loc
  jsDoc : Option (List JSDocData)
  isExported : Option Bool

/-- A type-alias declaration entry; `value` is attached lazily at Visit
time. -/
structure TypeDecl where
  name : String
  loc : Loc
  jsDoc : Option (List JSDocData)
  isExported : Option Bool
  value : Option Type' := none

/-! ## Insertion-ordered association maps (`Map<string, T>`) -/

/-- An insertion-ordered string-keyed map. -/
abbrev OMap (α : Type) : Type := List (String × α)

/-- `map.get(k)`. -/
def omapGet {α : Type} : OMap α → String → Option α
  | [], _ => none
  | (k', v) :: rest, k => if k' = k then some v else omapGet rest k

/-- `map.set(k, v)`: replaces in place (keeping insertion position) or
appends. -/
def omapSet {α : Type} : OMap α → String → α → OMap α
  | [], k, v => [(k, v)]
  | (k', v') :: rest, k, v =>
    if k' = k then (k, v) :: rest else (k', v') :: omapSet rest k v

/-- `[...map.values()]` in insertion order. -/
def omapValues {α : Type} (m : OMap α) : List α := m.map (·.2)

/-- `map.has(k)`. -/
def omapHas {α : Type} (m : OMap α) (k : String) : Bool := (omapGet m k).isSome

/-- Number of entries stored under key `k` (a well-formed map has at most
one). -/
def omapCountKey {α : Type} : OMap α → String → Nat
  | [], _ => 0
  | (k', _) :: rest, k => (if k' = k then 1 else 0) + omapCountKey rest k

/-! ## The module heap -/

/-- A `Module` record: name, repository identifier, namespace flag, the
five named declaration collections, the ordered constants list, and the
child-module map. Child modules are heap identifiers because the same
`Module` object is aliased between `namespaceCache` and the `modules` maps
of its parents. -/
structure ModuleData where
  name : String
  repository : Option String
  isNamespace : Bool
  classes : OMap ClassDecl := []
  interfaces : OMap InterfaceDecl := []
  enums : OMap EnumDecl := []
  types : OMap TypeDecl := []
  functions : OMap FunctionDecl := []
  constants : List ConstantDecl := []
  modules : OMap Nat := []

/-- Modelled from the spec: `createModule` from `../structure` (the file is
not under `src/`); per §4.1 and §3 of the spec it builds a fresh `Module`
with the given name, repository identifier and namespace flag and empty
collections. The second argument of the source call sites is always
`false` and its meaning is not recoverable from `src/`; it is accepted and
ignored. -/
def createModule (name : String) (_flag : Bool) (repository : Option String)
    (isNamespace : Bool := false) : ModuleData :=
  { name := name, repository := repository, isNamespace := isNamespace }

/-- The extractor's mutable state: the module heap (`store`/`next`), the
root module (`this.module`), the current module pointer, the two caches and
the configured base directory. -/
structure PState where
  store : Nat → ModuleData
  next : Nat
  rootId : Nat
  currentModule : Nat
  moduleCache : OMap Nat
  namespaceCache : OMap Nat
  baseDir : String

/-- Read a module record from the heap. -/
def getMod (s : PState) (i : Nat) : ModuleData := s.store i

/-- Overwrite a module record in the heap (in-place object mutation). -/
def setMod (s : PState) (i : Nat) (d : ModuleData) : PState :=
  { s with store := fun j => if j = i then d else s.store j }

/-- Allocate a fresh module object. -/
def allocMod (s : PState) (d : ModuleData) : Nat × PState :=
  (s.next, { s with store := (fun j => if j = s.next then d else s.store j),
                    next := s.next + 1 })

/-- Update the current module's record through `f`. -/
def updCurrent (s : PState) (f : ModuleData → ModuleData) : PState :=
  setMod s s.currentModule (f (getMod s s.currentModule))

/-! ## Location tracking -/

/-- `getLOC(node, sourceFile, includeLine)`: for a namespace current module
the locator anchors on the namespace's repository identifier (rendered as a
template literal, so an unset repository prints as `"undefined"`) with a
1-based line suffix; otherwise the locator is
`<repository>/<getLastItemFromPath(fileName)>` with an optional line
suffix, guarded by the truthiness of `repository`. -/
def getLOC (currentModule : ModuleData) (pos : LineCol) (fileName : String)
    (includeLine : Bool := true) : Loc :=
  if currentModule.isNamespace then
    { pos := pos,
      sourceFile := some (jsTemplateStr currentModule.repository ++ "#L" ++ toString (pos.line + 1)) }
  else
    { pos := pos,
      sourceFile := jsAndStr currentModule.repository
        (jsTemplateStr currentModule.repository ++ "/" ++ getLastItemFromPath fileName ++
          (if includeLine then "#L" ++ toString (pos.line + 1) else "")) }

/-! ## Module tree building from file paths -/

/-- JavaScript `array.indexOf(x)` over a string array (`-1` when absent). -/
def arrIndexOfAux : List String → String → Nat → Int
  | [], _, _ => -1
  | y :: ys, x, i => if y = x then (i : Int) else arrIndexOfAux ys x (i + 1)

private def splitOnCharAux : List Char → Char → List Char → List (List Char)
  | [], _, acc => [acc.reverse]
  | x :: xs, c, acc =>
    if x = c then acc.reverse :: splitOnCharAux xs c []
    else splitOnCharAux xs c (x :: acc)

/-- JavaScript `s.split(c)` for a single-character separator. -/
def jsSplitChar (s : String) (c : Char) : List String :=
  (splitOnCharAux s.data c []).map (fun l => ⟨l⟩)

/-- The loop of `moduleFromFile`: walk (or create) one child module per
path segment. -/
def walkPathParts (s : PState) (lastModule : Nat) : List String → Nat × PState
  | [] => (lastModule, s)
  | part :: rest =>
    match omapGet (getMod s lastModule).modules part with
    | some newLastMod => walkPathParts s newLastMod rest
    | none =>
      let md := createModule part false
        (some (jsTemplateStr (getMod s lastModule).repository ++ "/" ++ part))
      let (mid, s1) := allocMod s md
      let s2 := setMod s1 lastModule
        { getMod s1 lastModule with
          modules := omapSet (getMod s1 lastModule).modules part mid }
      walkPathParts s2 mid rest

/-- `moduleFromFile`: split the file name on `/`, drop the file name
segment, keep the segments after the configured base directory, and
walk/create a module per remaining segment (the root module when none
remain). -/
def moduleFromFile (s : PState) (fileName : String) : Nat × PState :=
  let paths0 := jsSplitChar fileName '/'
  let paths1 := paths0.dropLast
  let paths := paths1.drop (arrIndexOfAux paths1 s.baseDir 0 + 1).toNat
  if paths.isEmpty then (s.rootId, s)
  else walkPathParts s s.rootId paths

/-- The 256-character truncation applied to a constant initializer's source
text (`text.length > 256 ? text.slice(0, 256) + "..." : text`). -/
def contentOf (text : String) : String :=
  if 256 < jsLength text then jsSlice0 text 256 ++ "..." else text

/-! ## Top-level statement nodes -/

/-- `node.name ? node.name.text : "export default"` — the key under which a
possibly-anonymous declaration is filed. -/
def prepareNameKey (name : Option String) : String :=
  match name with
  | some t => t
  | none => "export default"

/-- `node.modifiers && node.modifiers.some(mod => mod.kind === kw)`. -/
def hasModifier (mods : Option (List Modifier)) (kw : Modifier) : Option Bool :=
  mods.map (fun ms => ms.any (· = kw))

/-- One member modifier flag of a class member: starts `undefined` and is
set to `true` when the keyword occurs among the member's modifiers. -/
def memberFlag (mods : Option (List Modifier)) (kw : Modifier) : Option Bool :=
  match mods with
  | none => none
  | some ms => if ms.any (· = kw) then some true else none

/-- A variable declarator (`nameText` is `declaration.name.getText()`). -/
structure VarDeclarator where
  nameText : String
  type : Option TypeNode := none
  initializer : Option Expression := none
  pos : LineCol

/-- The token of a heritage clause. -/
inductive HeritageToken where
  | extendsKeyword | implementsKeyword
  deriving DecidableEq, Repr

/-- A heritage clause (its token and target list). -/
structure HeritageClauseNode where
  token : HeritageToken
  types : List ExpressionWithTypeArgs

/-- An `ExpressionWithTypeArguments` node handed to `resolveType` (by the
interface `implements` path) matches none of the resolver's enumerated
syntactic forms, so it is represented by the unenumerated-form
constructor carrying its raw text. -/
def ewtaAsTypeNode (e : ExpressionWithTypeArgs) : TypeNode :=
  .other "ExpressionWithTypeArguments" e.text

/-- A class member as classified by `handleClassDeclaration`. Function-like
members carry their optional return annotation and the checker's inferred
signature information. -/
inductive ClassMember where
  | property (nameText : String) (modifiers : Option (List Modifier))
      (questionToken : Bool) (type : Option TypeNode)
      (initializer : Option Expression) (jsDoc : List JSDocNode) (pos : LineCol)
  | method (nameText : String) (modifiers : Option (List Modifier))
      (typeParameters : Option (List TypeParameterDecl)) (parameters : List ParameterDecl)
      (type : Option TypeNode) (checkerSig : Option InferredSignature)
      (jsDoc : List JSDocNode) (pos : LineCol)
  | getAccessor (nameText : String) (modifiers : Option (List Modifier))
      (type : Option TypeNode) (checkerSig : Option InferredSignature)
      (jsDoc : List JSDocNode) (pos : LineCol)
  | setAccessor (nameText : String) (modifiers : Option (List Modifier))
      (parameters : List ParameterDecl) (type : Option TypeNode)
      (checkerSig : Option InferredSignature) (jsDoc : List JSDocNode) (pos : LineCol)
  | constructorMember (parameters : List ParameterDecl)
  | otherMember

/-- An enum member node (`nameText` is `m.name.getText()`). -/
structure EnumMemberNode where
  nameText : String
  initializer : Option Expression := none
  pos : LineCol

/-- A top-level statement as dispatched on by `_preparer` and `_visitor`.
`moduleDecl`'s `body` is `none` when the declaration has no module-block
body (in which case both phases skip it); `otherStmt` covers every
statement kind neither phase handles. -/
inductive Stmt where
  | varStatement (modifiers : Option (List Modifier)) (declarations : List VarDeclarator)
      (jsDoc : List JSDocNode) (pos : LineCol)
  | classDecl (name : Option String) (modifiers : Option (List Modifier))
      (typeParameters : Option (List TypeParameterDecl)) (members : List ClassMember)
      (heritageClauses : Option (List HeritageClauseNode))
      (jsDoc : List JSDocNode) (pos : LineCol)
  | interfaceDecl (name : String) (modifiers : Option (List Modifier))
      (typeParameters : Option (List TypeParameterDecl)) (members : List TypeElement)
      (heritageClauses : Option (List HeritageClauseNode))
      (jsDoc : List JSDocNode) (pos : LineCol)
  | enumDecl (name : String) (modifiers : Option (List Modifier))
      (members : List EnumMemberNode) (jsDoc : List JSDocNode) (pos : LineCol)
  | typeAliasDecl (name : String) (modifiers : Option (List Modifier))
      (type : TypeNode) (jsDoc : List JSDocNode) (pos : LineCol)
  | functionDecl (name : Option String) (modifiers : Option (List Modifier))
      (typeParameters : Option (List TypeParameterDecl)) (parameters : List ParameterDecl)
      (type : Option TypeNode) (checkerSig : Option InferredSignature)
      (jsDoc : List JSDocNode) (pos : LineCol)
  | moduleDecl (name : String) (body : Option (List Stmt)) (pos : LineCol)
  | otherStmt

/-- A source file: its name and ordered top-level statements. -/
structure SourceFile where
  fileName : String
  statements : List Stmt

/-! ## Visit-phase handlers -/

/-- `handleTypeDeclaration`: look up the skeleton entry created by Prepare
and attach the resolved right-hand side. The `as TypeDecl` cast in the
source means a missing entry is dereferenced as `undefined` and the
assignment to `decl.value` throws — modelled as a hard `error` result. -/
def handleTypeDeclaration (refs : RefManager) (fileName : String) (s : PState)
    (name : String) (ty : TypeNode) : Except String PState :=
  match omapGet (getMod s s.currentModule).types name with
  | none => .error "TypeError: cannot set properties of undefined"
  | some decl =>
    .ok (updCurrent s fun m =>
      { m with types := omapSet m.types name { decl with value := some (resolveType refs ty) } })

/-- `handleFunctionDeclaration`: build the signature object; append it to
an existing entry of the same name, otherwise create the entry with it as
the sole signature. -/
def handleFunctionDeclaration (refs : RefManager) (fileName : String) (s : PState)
    (name? : Option String) (typeParameters : Option (List TypeParameterDecl))
    (parameters : List ParameterDecl) (type? : Option TypeNode)
    (checkerSig : Option InferredSignature) (jsDoc : List JSDocNode) (pos : LineCol) : PState :=
  let name := prepareNameKey name?
  let m := getMod s s.currentModule
  let obj : FunctionSignature :=
    { name := name?,
      parameters := resolveParameterList refs parameters,
      typeParameters := resolveGenericsArgs refs typeParameters,
      returnType := resolveReturnType refs type? checkerSig,
      loc := getLOC m pos fileName,
      jsDoc := getJSDocData refs jsDoc }
  match omapGet m.functions name with
  | some fn =>
    let fn' : FunctionDecl := { fn with signatures := fn.signatures ++ [obj] }
    updCurrent s fun md => { md with functions := omapSet md.functions name fn' }
  | none =>
    let fn' : FunctionDecl :=
      { name := name, signatures := [obj], loc := getLOC m pos fileName,
        jsDoc := getJSDocData refs jsDoc }
    updCurrent s fun md => { md with functions := omapSet md.functions name fn' }

/-- The `ConstantDecl` built for one declarator of an exported variable
statement (declarators without an initializer are skipped). -/
def constantOfDeclarator (refs : RefManager) (fileName : String) (m : ModuleData)
    (jsDoc : List JSDocNode) (d : VarDeclarator) : Option ConstantDecl :=
  match d.initializer with
  | none => none
  | some init =>
    some { name := d.nameText,
           loc := getLOC m d.pos fileName,
           type := d.type.map (resolveType refs),
           content := contentOf (exprText init),
           jsDoc := getJSDocData refs jsDoc }

/-- `handleVariableDeclaration`: push the built constants onto the current
module's constants list. -/
def handleVariableDeclaration (refs : RefManager) (fileName : String) (s : PState)
    (declarations : List VarDeclarator) (jsDoc : List JSDocNode) : PState :=
  updCurrent s fun m =>
    { m with constants := m.constants ++
        declarations.filterMap (constantOfDeclarator refs fileName (getMod s s.currentModule) jsDoc) }

/-- The accumulator of the class-member loop: pushed properties, the local
`methods` map, and the last constructor seen. -/
structure ClassVisitAcc where
  properties : List ClassProperty
  methods : OMap ClassMethod
  ctor : Option ClassObjectConstructor

/-- One iteration of the class-member loop of `handleClassDeclaration`. -/
def classMemberStep (refs : RefManager) (fileName : String) (m : ModuleData)
    (acc : ClassVisitAcc) : ClassMember → ClassVisitAcc
  | .property nameText mods questionToken ty init jsDoc pos =>
    { acc with properties := acc.properties ++ [{
        name := nameText,
        type := (match ty with
          | some t => some (resolveType refs t)
          | none =>
            match init with
            | some e => some (resolveExpressionToType refs e)
            | none => none),
        loc := getLOC m pos fileName,
        isOptional := questionToken,
        isPrivate := memberFlag mods .privateKw,
        isProtected := memberFlag mods .protectedKw,
        isStatic := memberFlag mods .staticKw,
        isReadonly := memberFlag mods .readonlyKw,
        isAbstract := memberFlag mods .abstractKw,
        jsDoc := getJSDocData refs jsDoc }] }
  | .method nameText mods tps params ty csig jsDoc pos =>
    let sig : MethodSignature :=
      { returnType := resolveReturnType refs ty csig,
        typeParameters := resolveGenericsArgs refs tps,
        parameters := some (resolveParameterList refs params),
        loc := getLOC m pos fileName,
        jsDoc := getJSDocData refs jsDoc }
    (match omapGet acc.methods nameText with
     | some mtd =>
       let mtd' : ClassMethod := { mtd with signatures := mtd.signatures ++ [sig] }
       { acc with methods := omapSet acc.methods nameText mtd' }
     | none =>
       let mtd' : ClassMethod :=
         { name := nameText, loc := getLOC m pos fileName,
           isPrivate := memberFlag mods .privateKw,
           isProtected := memberFlag mods .protectedKw,
           isStatic := memberFlag mods .staticKw,
           isAbstract := memberFlag mods .abstractKw,
           jsDoc := getJSDocData refs jsDoc,
           signatures := [sig] }
       { acc with methods := omapSet acc.methods nameText mtd' })
  | .getAccessor nameText mods ty csig jsDoc pos =>
    let mtd' : ClassMethod :=
      { name := nameText,
        signatures := [{ returnType := resolveReturnType refs ty csig,
                         loc := getLOC m pos fileName,
                         jsDoc := getJSDocData refs jsDoc }],
        isPrivate := memberFlag mods .privateKw,
        isProtected := memberFlag mods .protectedKw,
        isStatic := memberFlag mods .staticKw,
        isAbstract := memberFlag mods .abstractKw,
        loc := getLOC m pos fileName,
        jsDoc := getJSDocData refs jsDoc,
        isGetter := some true }
    { acc with methods := omapSet acc.methods nameText mtd' }
  | .setAccessor nameText mods params ty csig jsDoc pos =>
    let mtd' : ClassMethod :=
      { name := nameText,
        signatures := [{ returnType := resolveReturnType refs ty csig,
                         parameters := some (resolveParameterList refs params),
                         loc := getLOC m pos fileName,
                         jsDoc := getJSDocData refs jsDoc }],
        isPrivate := memberFlag mods .privateKw,
        isProtected := memberFlag mods .protectedKw,
        isStatic := memberFlag mods .staticKw,
        isAbstract := memberFlag mods .abstractKw,
        loc := getLOC m pos fileName,
        jsDoc := getJSDocData refs jsDoc,
        isSetter := some true }
    { acc with methods := omapSet acc.methods nameText mtd' }
  | .constructorMember params =>
    { acc with ctor := some { parameters := resolveParameterList refs params } }
  | .otherMember => acc

/-- `handleClassDeclaration`: look up the skeleton (hard failure when
absent, per the `as ClassDecl` cast), overwrite its type parameters,
accumulate members, append the local method map's values, and resolve the
heritage clauses. -/
def handleClassDeclaration (refs : RefManager) (fileName : String) (s : PState)
    (name? : Option String) (typeParameters : Option (List TypeParameterDecl))
    (members : List ClassMember)
    (heritageClauses : Option (List HeritageClauseNode)) : Except String PState :=
  let key := jsOrDefault name? "export default"
  let m := getMod s s.currentModule
  match omapGet m.classes key with
  | none => .error "TypeError: cannot set properties of undefined"
  | some res =>
    let res := { res with typeParameters := resolveGenericsArgs refs typeParameters }
    let acc := members.foldl (classMemberStep refs fileName m) ⟨[], [], none⟩
    let res := { res with
        properties := res.properties ++ acc.properties,
        methods := res.methods ++ omapValues acc.methods,
        ctor := match acc.ctor with | some c => some c | none => res.ctor }
    let res :=
      match heritageClauses with
      | none => res
      | some clauses =>
        let ext := (clauses.find? (fun c => c.token = .extendsKeyword)).bind
          (fun c => (c.types.head?).map (resolveHeritage refs))
        let impls := (clauses.find? (fun c => c.token = .implementsKeyword)).map
          (fun c => c.types.map (resolveHeritage refs))
        { res with extendsRef := ext, implementsRefs := impls }
    .ok (updCurrent s fun md => { md with classes := omapSet md.classes key res })

/-- `handleInterfaceDeclaration`: look up the skeleton (hard failure when
absent), overwrite the type parameters, append the resolved members to the
(possibly merged) property list, and resolve heritage (interface
`implements` targets go through `resolveType`, where an
expression-with-type-arguments node lands in the unenumerated fallback). -/
def handleInterfaceDeclaration (refs : RefManager) (fileName : String) (s : PState)
    (name : String) (typeParameters : Option (List TypeParameterDecl))
    (members : List TypeElement)
    (heritageClauses : Option (List HeritageClauseNode)) : Except String PState :=
  let m := getMod s s.currentModule
  match omapGet m.interfaces name with
  | none => .error "TypeError: cannot set properties of undefined"
  | some res =>
    let res := { res with
        typeParameters := resolveGenericsArgs refs typeParameters,
        properties := res.properties ++ resolvePropertyList refs members }
    let res :=
      match heritageClauses with
      | none => res
      | some clauses =>
        let ext := (clauses.find? (fun c => c.token = .extendsKeyword)).bind
          (fun c => (c.types.head?).map (resolveHeritage refs))
        let impls := (clauses.find? (fun c => c.token = .implementsKeyword)).map
          (fun c => c.types.map (fun impl => resolveType refs (ewtaAsTypeNode impl)))
        { res with extendsRef := ext, implementsRefs := impls }
    .ok (updCurrent s fun md => { md with interfaces := omapSet md.interfaces name res })

/-! ## The Prepare phase -/

mutual

/-- `_preparer`: create/merge skeleton entries for classes, interfaces,
enums and type aliases; for module blocks, set the current module to the
cached or freshly created namespace module, link it into the enclosing
module's child map and the namespace cache, recurse, and restore. -/
def preparerStep (refs : RefManager) (fileName : String) (s : PState) : Stmt → PState
  | .classDecl name mods tps members her jsDoc pos =>
    let nm := prepareNameKey name
    let skeleton : ClassDecl :=
      { name := nm, typeParameters := some [], properties := [], methods := [],
        loc := getLOC (getMod s s.currentModule) pos fileName,
        ctor := none,
        isAbstract := hasModifier mods .abstractKw,
        jsDoc := getJSDocData refs jsDoc,
        isExported := hasModifier mods .exportKw }
    updCurrent s fun m => { m with classes := omapSet m.classes nm skeleton }
  | .interfaceDecl name mods tps members her jsDoc pos =>
    let m := getMod s s.currentModule
    (match omapGet m.interfaces name with
     | some existing =>
       let merged : InterfaceDecl :=
         { existing with loc := existing.loc ++ [getLOC m pos fileName] }
       updCurrent s fun md => { md with interfaces := omapSet md.interfaces name merged }
     | none =>
       let skeleton : InterfaceDecl :=
         { name := name, typeParameters := some [],
           loc := [getLOC m pos fileName], properties := [],
           jsDoc := getJSDocData refs jsDoc,
           isExported := hasModifier mods .exportKw }
       updCurrent s fun md => { md with interfaces := omapSet md.interfaces name skeleton })
  | .enumDecl name mods members jsDoc pos =>
    let m := getMod s s.currentModule
    let newMembers := members.map fun em =>
      ({ name := em.nameText,
         initializer := em.initializer.map (resolveExpressionToType refs),
         loc := getLOC m em.pos fileName } : EnumMemberDecl)
    (match omapGet m.enums name with
     | some existing =>
       let merged : EnumDecl :=
         { existing with
           loc := existing.loc ++ [getLOC m pos fileName],
           members := existing.members ++ newMembers }
       updCurrent s fun md => { md with enums := omapSet md.enums name merged }
     | none =>
       let skeleton : EnumDecl :=
         { name := name,
           isConst := (hasModifier mods .constKw).getD false,
           members := newMembers,
           loc := [getLOC m pos fileName],
           jsDoc := getJSDocData refs jsDoc,
           isExported := hasModifier mods .exportKw }
       updCurrent s fun md => { md with enums := omapSet md.enums name skeleton })
  | .typeAliasDecl name mods ty jsDoc pos =>
    let skeleton : TypeDecl :=
      { name := name,
        loc := getLOC (getMod s s.currentModule) pos fileName,
        jsDoc := getJSDocData refs jsDoc,
        isExported := hasModifier mods .exportKw }
    updCurrent s fun md => { md with types := omapSet md.types name skeleton }
  | .moduleDecl name body pos =>
    (match body with
     | none => s
     | some stmts =>
       let currModule := s.currentModule
       let locSF := (getLOC (getMod s currModule) pos fileName false).sourceFile
       let (childId, s1) :=
         match omapGet s.namespaceCache name with
         | some cached => (cached, s)
         | none => allocMod s (createModule name false locSF true)
       let s2 := setMod s1 currModule
         { getMod s1 currModule with
           modules := omapSet (getMod s1 currModule).modules name childId }
       let s3 := { s2 with namespaceCache := omapSet s2.namespaceCache name childId,
                           currentModule := childId }
       let s4 := preparerList refs fileName s3 stmts
       { s4 with currentModule := currModule })
  | _ => s
termination_by structural st => st

/-- The statement loop of the Prepare phase. -/
def preparerList (refs : RefManager) (fileName : String) (s : PState) : List Stmt → PState
  | [] => s
  | st :: rest => preparerList refs fileName (preparerStep refs fileName s st) rest
termination_by structural l => l

end

/-! ## The Visit phase -/

mutual

/-- `_visitor`: dispatch a statement to its Visit-phase handler. Variable
statements and function declarations are only handled when carrying an
`export` modifier; module blocks recurse with the cached namespace module
as current module (an uncached name leaves `this.currentModule` undefined
in the source, which the model surfaces as an immediate hard failure). -/
def visitorStep (refs : RefManager) (fileName : String) (s : PState) :
    Stmt → Except String PState
  | .varStatement mods decls jsDoc pos =>
    if (hasModifier mods .exportKw).getD false then
      .ok (handleVariableDeclaration refs fileName s decls jsDoc)
    else .ok s
  | .classDecl name mods tps members her jsDoc pos =>
    handleClassDeclaration refs fileName s name tps members her
  | .interfaceDecl name mods tps members her jsDoc pos =>
    handleInterfaceDeclaration refs fileName s name tps members her
  | .functionDecl name mods tps params ty csig jsDoc pos =>
    if (hasModifier mods .exportKw).getD false then
      .ok (handleFunctionDeclaration refs fileName s name tps params ty csig jsDoc pos)
    else .ok s
  | .typeAliasDecl name mods ty jsDoc pos =>
    handleTypeDeclaration refs fileName s name ty
  | .moduleDecl name body pos =>
    (match body with
     | none => .ok s
     | some stmts =>
       let currModule := s.currentModule
       match omapGet s.namespaceCache name with
       | none => .error "TypeError: this.currentModule is undefined"
       | some cached =>
         match visitorList refs fileName { s with currentModule := cached } stmts with
         | .error e => .error e
         | .ok s' => .ok { s' with currentModule := currModule })
  | _ => .ok s
termination_by structural st => st

/-- The statement loop of the Visit phase. -/
def visitorList (refs : RefManager) (fileName : String) (s : PState) :
    List Stmt → Except String PState
  | [] => .ok s
  | st :: rest =>
    match visitorStep refs fileName s st with
    | .error e => .error e
    | .ok s' => visitorList refs fileName s' rest
termination_by structural l => l

end

/-- `runPreparerOnFile`: derive the file's module, record it in the file
cache, and prepare every top-level statement. -/
def runPreparerOnFile (refs : RefManager) (s : PState) (file : SourceFile) : PState :=
  let p := moduleFromFile s file.fileName
  let s2 := { p.2 with currentModule := p.1,
                       moduleCache := omapSet p.2.moduleCache file.fileName p.1 }
  preparerList refs file.fileName s2 file.statements

/-- `runOnFile`: set the current module from the file cache and visit every
top-level statement (a missing cache entry leaves `this.currentModule`
undefined in the source; the model surfaces this as an immediate hard
failure). -/
def runOnFile (refs : RefManager) (s : PState) (file : SourceFile) : Except String PState :=
  match omapGet s.moduleCache file.fileName with
  | none => .error "TypeError: this.currentModule is undefined"
  | some mid =>
    visitorList refs file.fileName { s with currentModule := mid } file.statements

/-! ## The serializer (`moduleToJSON`)

`moduleToJSON` consumes the finished module tree; the tree reachable from
the root module is represented directly (`ModuleTree`), with the same
fields as the heap records and child modules inlined. The output shape
(`ModuleJSON`) has every named-map collection replaced by a plain list —
the output type has no map-typed field by construction. -/

/-- A `Module` as a tree, the serializer's input. -/
inductive ModuleTree where
  | mk (name : String) (repository : Option String) (isNamespace : Bool)
      (classes : OMap ClassDecl) (interfaces : OMap InterfaceDecl)
      (enums : OMap EnumDecl) (types : OMap TypeDecl)
      (functions : OMap FunctionDecl) (constants : List ConstantDecl)
      (modules : List (String × ModuleTree))

/-- The serialized output: only scalars, lists and nested objects. -/
inductive ModuleJSON where
  | mk (name : String) (repository : Option String) (isNamespace : Bool)
      (classes : List ClassDecl) (interfaces : List InterfaceDecl)
      (enums : List EnumDecl) (types : List TypeDecl)
      (functions : List FunctionDecl) (constants : List ConstantDecl)
      (modules : List ModuleJSON)

mutual

/-- `moduleToJSON`: shallow-clone the module, then replace each named-map
collection by the array of its values (insertion order) and the child map
by the array of recursively serialized children. -/
def moduleToJSON : ModuleTree → ModuleJSON
  | .mk name repository isNamespace classes interfaces enums types functions constants modules =>
    .mk name repository isNamespace
      (omapValues classes) (omapValues interfaces) (omapValues enums)
      (omapValues types) (omapValues functions) constants
      (moduleToJSONList modules)
termination_by structural m => m

/-- The `for (const [, mod] of module.modules)` loop of `moduleToJSON`. -/
def moduleToJSONList : OMap ModuleTree → List ModuleJSON
  | [] => []
  | (_, m) :: rest => moduleToJSON m :: moduleToJSONList rest
termination_by structural l => l

end

mutual

/-- Total number of declarations in a module tree over the five named-map
collections, at every depth. -/
def countTree : ModuleTree → Nat
  | .mk _ _ _ classes interfaces enums types functions _ modules =>
    classes.length + interfaces.length + enums.length + types.length +
      functions.length + countTreeList modules
termination_by structural m => m

/-- Sum of `countTree` over a child-module map. -/
def countTreeList : OMap ModuleTree → Nat
  | [] => 0
  | (_, m) :: rest => countTree m + countTreeList rest
termination_by structural l => l

end

mutual

/-- Combined element count of the serialized declaration arrays, at every
depth. -/
def countJSON : ModuleJSON → Nat
  | .mk _ _ _ classes interfaces enums types functions _ modules =>
    classes.length + interfaces.length + enums.length + types.length +
      functions.length + countJSONList modules
termination_by structural m => m

/-- Sum of `countJSON` over serialized children. -/
def countJSONList : List ModuleJSON → Nat
  | [] => 0
  | m :: rest => countJSON m + countJSONList rest
termination_by structural l => l

end

/-- The serialized `classes` array. -/
def ModuleJSON.classes : ModuleJSON → List ClassDecl
  | .mk _ _ _ c _ _ _ _ _ _ => c

/-- The serialized `interfaces` array. -/
def ModuleJSON.interfaces : ModuleJSON → List InterfaceDecl
  | .mk _ _ _ _ i _ _ _ _ _ => i

/-- The serialized `enums` array. -/
def ModuleJSON.enums : ModuleJSON → List EnumDecl
  | .mk _ _ _ _ _ e _ _ _ _ => e

/-- The serialized `types` array. -/
def ModuleJSON.types : ModuleJSON → List TypeDecl
  | .mk _ _ _ _ _ _ t _ _ _ => t

/-- The serialized `functions` array. -/
def ModuleJSON.functions : ModuleJSON → List FunctionDecl
  | .mk _ _ _ _ _ _ _ f _ _ => f

/-- The serialized `modules` array. -/
def ModuleJSON.modules : ModuleJSON → List ModuleJSON
  | .mk _ _ _ _ _ _ _ _ _ ms => ms

/-- The input `classes` map. -/
def ModuleTree.classes : ModuleTree → OMap ClassDecl
  | .mk _ _ _ c _ _ _ _ _ _ => c

/-- The input `interfaces` map. -/
def ModuleTree.interfaces : ModuleTree → OMap InterfaceDecl
  | .mk _ _ _ _ i _ _ _ _ _ => i

/-- The input `enums` map. -/
def ModuleTree.enums : ModuleTree → OMap EnumDecl
  | .mk _ _ _ _ _ e _ _ _ _ => e

/-- The input `types` map. -/
def ModuleTree.types : ModuleTree → OMap TypeDecl
  | .mk _ _ _ _ _ _ t _ _ _ => t

/-- The input `functions` map. -/
def ModuleTree.functions : ModuleTree → OMap FunctionDecl
  | .mk _ _ _ _ _ _ _ f _ _ => f

/-- The input `modules` map. -/
def ModuleTree.modules : ModuleTree → OMap ModuleTree
  | .mk _ _ _ _ _ _ _ _ _ ms => ms

/-! ## The resolver's enumerated-form predicate -/

/-- `true` exactly for the syntactic forms `resolveType` explicitly
enumerates (type reference, function type, type literal, union,
intersection, tuple, type operator, array, parenthesized, `this`, literal
type, and the recognized primitive/literal keyword kinds). -/
def enumeratedForm : TypeNode → Bool
  | .other _ _ => false
  | _ => true

/-! ## State invariants and monotonicity -/

/-- Heap-validity of the extractor state: every module identifier the
state can reach (root, current module, both caches, and the child-module
entries of allocated modules) lies below the allocation bound. -/
def Valid (s : PState) : Prop :=
  s.rootId < s.next ∧ s.currentModule < s.next ∧
  (∀ k id, omapGet s.namespaceCache k = some id → id < s.next) ∧
  (∀ k id, omapGet s.moduleCache k = some id → id < s.next) ∧
  (∀ mid, mid < s.next → ∀ k id, omapGet (getMod s mid).modules k = some id → id < s.next)

/-- Prepare-phase monotonicity: namespace-cache entries persist, the
allocation bound only grows, and class/interface/type-alias skeleton keys
of allocated modules persist. -/
def MonoP (s s' : PState) : Prop :=
  (∀ k id, omapGet s.namespaceCache k = some id → omapGet s'.namespaceCache k = some id) ∧
  s.next ≤ s'.next ∧
  (∀ mid, mid < s.next → ∀ k,
    ((omapGet (getMod s mid).classes k).isSome = true →
      (omapGet (getMod s' mid).classes k).isSome = true) ∧
    ((omapGet (getMod s mid).interfaces k).isSome = true →
      (omapGet (getMod s' mid).interfaces k).isSome = true) ∧
    ((omapGet (getMod s mid).types k).isSome = true →
      (omapGet (getMod s' mid).types k).isSome = true))

/-- Visit-phase monotonicity: the namespace cache is untouched and
skeleton keys of every module persist (the Visit phase never allocates). -/
def MonoV (s s' : PState) : Prop :=
  s'.namespaceCache = s.namespaceCache ∧ s'.next = s.next ∧
  (∀ mid k,
    ((omapGet (getMod s mid).classes k).isSome = true →
      (omapGet (getMod s' mid).classes k).isSome = true) ∧
    ((omapGet (getMod s mid).interfaces k).isSome = true →
      (omapGet (getMod s' mid).interfaces k).isSome = true) ∧
    ((omapGet (getMod s mid).types k).isSome = true →
      (omapGet (getMod s' mid).types k).isSome = true))

/-! ## Readiness: what the Prepare phase guarantees to the Visit phase -/

mutual

/-- The skeleton entries statement `st` will look up during Visit are
present in module `mid` of the given store, and every module block's name
is cached below the bound with a recursively ready body. -/
def ReadyStmt (store : Nat → ModuleData) (cache : OMap Nat) (bound : Nat)
    (mid : Nat) : Stmt → Prop
  | .classDecl name _ _ _ _ _ _ =>
    (omapGet (store mid).classes (jsOrDefault name "export default")).isSome = true
  | .interfaceDecl name _ _ _ _ _ _ =>
    (omapGet (store mid).interfaces name).isSome = true
  | .typeAliasDecl name _ _ _ _ =>
    (omapGet (store mid).types name).isSome = true
  | .moduleDecl name body _ =>
    (match body with
     | none => True
     | some stmts =>
       ∃ cid, omapGet cache name = some cid ∧ cid < bound ∧
         ReadyList store cache bound cid stmts)
  | _ => True
termination_by structural st => st

/-- `ReadyStmt` over a statement list. -/
def ReadyList (store : Nat → ModuleData) (cache : OMap Nat) (bound : Nat)
    (mid : Nat) : List Stmt → Prop
  | [] => True
  | st :: rest => ReadyStmt store cache bound mid st ∧ ReadyList store cache bound mid rest
termination_by structural l => l

end

/-! ## Statement well-formedness -/

mutual

/-- Statement well-formedness as produced by a real parser: a class
declaration's name node, when present, has nonempty text (the Prepare
phase keys a present name by its text while the Visit phase treats empty
text as absent). -/
def WfStmt : Stmt → Prop
  | .classDecl name _ _ _ _ _ _ => name ≠ some ""
  | .moduleDecl _ body _ =>
    (match body with
     | none => True
     | some stmts => WfList stmts)
  | _ => True
termination_by structural st => st

/-- `WfStmt` over a statement list. -/
def WfList : List Stmt → Prop
  | [] => True
  | st :: rest => WfStmt st ∧ WfList rest
termination_by structural l => l

end

/-- The combined guarantees of a Prepare-phase step from state `s` to
state `s'`. -/
def PrepOut (s s' : PState) : Prop :=
  MonoP s s' ∧ s'.currentModule = s.currentModule ∧
  s'.moduleCache = s.moduleCache ∧ s'.rootId = s.rootId ∧
  (Valid s → Valid s')

/-- The combined guarantees of a successful Visit-phase step. -/
def VisitOut (s s' : PState) : Prop :=
  MonoV s s' ∧ s'.currentModule = s.currentModule ∧ s'.moduleCache = s.moduleCache

/-! ## Witness fixtures -/

/-- An empty injected reference manager, for concrete evaluations. -/
def emptyRefs : RefManager :=
  { resolveSymbolOf := fun _ _ => none, isDefault := fun _ => false }

/-- A minimal initial extractor state over an empty root module. -/
def initState : PState :=
  { store := fun _ => createModule "root" false none, next := 1, rootId := 0,
    currentModule := 0, moduleCache := [], namespaceCache := [], baseDir := "src" }

/-! ## Ordered-map lemmas -/

theorem omapGet_set_eq {α : Type} (m : OMap α) (k : String) (v : α) :
    omapGet (omapSet m k v) k = some v := by
  induction m with
  | nil => simp [omapSet, omapGet]
  | cons hd tl ih =>
    obtain ⟨k', v'⟩ := hd
    by_cases h : k' = k
    · subst h; simp [omapSet, omapGet]
    · simp [omapSet, omapGet, h, ih]

theorem omapGet_set_ne {α : Type} (m : OMap α) (k k' : String) (v : α) (h : k' ≠ k) :
    omapGet (omapSet m k' v) k = omapGet m k := by
  induction m with
  | nil => simp [omapSet, omapGet, h]
  | cons hd tl ih =>
    obtain ⟨k0, v0⟩ := hd
    by_cases h0 : k0 = k'
    · subst h0; simp [omapSet, omapGet, h]
    · by_cases h1 : k0 = k
      · subst h1; simp [omapSet, omapGet, h0, Ne.symm h0]
      · simp [omapSet, omapGet, h0, h1, ih]

theorem omapGet_set_isSome {α : Type} (m : OMap α) (k k' : String) (v : α)
    (h : (omapGet m k).isSome = true) :
    (omapGet (omapSet m k' v) k).isSome = true := by
  by_cases hk : k' = k
  · subst hk; rw [omapGet_set_eq]; rfl
  · rw [omapGet_set_ne m k k' v hk]; exact h

theorem omapGet_set_some_preserved {α : Type} (m : OMap α) (k k' : String) (v : α)
    (id : α) (h : omapGet m k = some id) (hsame : k' = k → v = id) :
    omapGet (omapSet m k' v) k = some id := by
  by_cases hk : k' = k
  · subst hk; rw [omapGet_set_eq, hsame rfl]
  · rw [omapGet_set_ne m k k' v hk]; exact h

theorem omapCountKey_set_of_isSome {α : Type} (m : OMap α) (k : String) (v : α)
    (h : (omapGet m k).isSome = true) :
    omapCountKey (omapSet m k v) k = omapCountKey m k := by
  induction m with
  | nil => simp [omapGet] at h
  | cons hd tl ih =>
    obtain ⟨k0, v0⟩ := hd
    by_cases h0 : k0 = k
    · subst h0; simp [omapSet, omapCountKey]
    · have h' : (omapGet tl k).isSome = true := by simpa [omapGet, h0] using h
      simp [omapSet, omapCountKey, h0, ih h']

theorem omapCountKey_set_of_none {α : Type} (m : OMap α) (k : String) (v : α)
    (h : omapGet m k = none) :
    omapCountKey (omapSet m k v) k = omapCountKey m k + 1 := by
  induction m with
  | nil => simp [omapSet, omapGet, omapCountKey]
  | cons hd tl ih =>
    obtain ⟨k0, v0⟩ := hd
    by_cases h0 : k0 = k
    · subst h0; simp [omapGet] at h
    · have h' : omapGet tl k = none := by simpa [omapGet, h0] using h
      simp [omapSet, omapCountKey, h0, ih h']

theorem omapCountKey_pos_of_isSome {α : Type} (m : OMap α) (k : String)
    (h : (omapGet m k).isSome = true) : 1 ≤ omapCountKey m k := by
  induction m with
  | nil => simp [omapGet] at h
  | cons hd tl ih =>
    obtain ⟨k0, v0⟩ := hd
    by_cases h0 : k0 = k
    · have : omapCountKey ((k0, v0) :: tl) k = 1 + omapCountKey tl k := by
        simp [omapCountKey, h0]
      omega
    · have h' : (omapGet tl k).isSome = true := by simpa [omapGet, h0] using h
      have hrec := ih h'
      have : omapCountKey ((k0, v0) :: tl) k = omapCountKey tl k := by
        simp [omapCountKey, h0]
      omega

theorem omapCountKey_zero_of_none {α : Type} (m : OMap α) (k : String)
    (h : omapGet m k = none) : omapCountKey m k = 0 := by
  induction m with
  | nil => simp [omapCountKey]
  | cons hd tl ih =>
    obtain ⟨k0, v0⟩ := hd
    by_cases h0 : k0 = k
    · subst h0; simp [omapGet] at h
    · have h' : omapGet tl k = none := by simpa [omapGet, h0] using h
      have hrec := ih h'
      have : omapCountKey ((k0, v0) :: tl) k = omapCountKey tl k := by
        simp [omapCountKey, h0]
      omega

theorem monoP_refl (s : PState) : MonoP s s :=
  ⟨fun _ _ h => h, Nat.le_refl _, fun _ _ _ => ⟨id, id, id⟩⟩

theorem monoP_trans {s1 s2 s3 : PState} (h1 : MonoP s1 s2) (h2 : MonoP s2 s3) : MonoP s1 s3 := by
  obtain ⟨c1, n1, m1⟩ := h1
  obtain ⟨c2, n2, m2⟩ := h2
  refine ⟨fun k id h => c2 k id (c1 k id h), Nat.le_trans n1 n2, ?_⟩
  intro mid hmid k
  obtain ⟨a1, b1, d1⟩ := m1 mid hmid k
  obtain ⟨a2, b2, d2⟩ := m2 mid (Nat.lt_of_lt_of_le hmid n1) k
  exact ⟨fun h => a2 (a1 h), fun h => b2 (b1 h), fun h => d2 (d1 h)⟩

theorem monoV_refl (s : PState) : MonoV s s :=
  ⟨rfl, rfl, fun _ _ => ⟨id, id, id⟩⟩

theorem monoV_trans {s1 s2 s3 : PState} (h1 : MonoV s1 s2) (h2 : MonoV s2 s3) : MonoV s1 s3 := by
  obtain ⟨c1, n1, m1⟩ := h1
  obtain ⟨c2, n2, m2⟩ := h2
  refine ⟨c2.trans c1, n2.trans n1, ?_⟩
  intro mid k
  obtain ⟨a1, b1, d1⟩ := m1 mid k
  obtain ⟨a2, b2, d2⟩ := m2 mid k
  exact ⟨fun h => a2 (a1 h), fun h => b2 (b1 h), fun h => d2 (d1 h)⟩

/-! ## Heap-access lemmas -/

theorem getMod_setMod_self (s : PState) (i : Nat) (d : ModuleData) :
    getMod (setMod s i d) i = d := by
  simp [getMod, setMod]

theorem getMod_setMod_ne (s : PState) (i : Nat) (d : ModuleData) (j : Nat) (h : j ≠ i) :
    getMod (setMod s i d) j = getMod s j := by
  simp [getMod, setMod, h]

theorem getMod_updCurrent_self (s : PState) (f : ModuleData → ModuleData) :
    getMod (updCurrent s f) s.currentModule = f (getMod s s.currentModule) := by
  simp [updCurrent, getMod, setMod]

theorem getMod_updCurrent_ne (s : PState) (f : ModuleData → ModuleData) (mid : Nat)
    (h : mid ≠ s.currentModule) : getMod (updCurrent s f) mid = getMod s mid := by
  simp [updCurrent, getMod, setMod, h]

theorem getMod_alloc_ne (s : PState) (d : ModuleData) (mid : Nat) (h : mid ≠ s.next) :
    getMod (allocMod s d).2 mid = getMod s mid := by
  simp [allocMod, getMod, h]

theorem getMod_alloc_self (s : PState) (d : ModuleData) :
    getMod (allocMod s d).2 s.next = d := by
  simp [allocMod, getMod]

theorem monoP_updCurrent (s : PState) (f : ModuleData → ModuleData)
    (hc : ∀ k, (omapGet (getMod s s.currentModule).classes k).isSome = true →
      (omapGet (f (getMod s s.currentModule)).classes k).isSome = true)
    (hi : ∀ k, (omapGet (getMod s s.currentModule).interfaces k).isSome = true →
      (omapGet (f (getMod s s.currentModule)).interfaces k).isSome = true)
    (ht : ∀ k, (omapGet (getMod s s.currentModule).types k).isSome = true →
      (omapGet (f (getMod s s.currentModule)).types k).isSome = true) :
    MonoP s (updCurrent s f) := by
  refine ⟨fun k id h => h, Nat.le_refl _, ?_⟩
  intro mid hmid k
  by_cases hm : mid = s.currentModule
  · subst hm
    rw [getMod_updCurrent_self]
    exact ⟨hc k, hi k, ht k⟩
  · rw [getMod_updCurrent_ne s f mid hm]
    exact ⟨id, id, id⟩

theorem valid_updCurrent_nomod (s : PState) (f : ModuleData → ModuleData)
    (h : (f (getMod s s.currentModule)).modules = (getMod s s.currentModule).modules)
    (hv : Valid s) : Valid (updCurrent s f) := by
  obtain ⟨h1, h2, h3, h4, h5⟩ := hv
  refine ⟨h1, h2, h3, h4, ?_⟩
  intro mid hmid k id hk
  by_cases hm : mid = s.currentModule
  · subst hm
    rw [getMod_updCurrent_self, h] at hk
    exact h5 _ hmid k id hk
  · rw [getMod_updCurrent_ne s f mid hm] at hk
    exact h5 _ hmid k id hk

/-- Setting one entry of a bounded identifier map keeps it bounded. -/
theorem omap_bound_set {c : OMap Nat} {n v : Nat} (name : String)
    (h : ∀ k id, omapGet c k = some id → id < n) (hb : v < n) :
    ∀ k id, omapGet (omapSet c name v) k = some id → id < n := by
  intro k id hk
  by_cases hkn : name = k
  · subst hkn
    rw [omapGet_set_eq] at hk
    cases hk
    exact hb
  · rw [omapGet_set_ne _ _ _ _ hkn] at hk
    exact h k id hk

/-- A bounded identifier map stays bounded when the bound grows. -/
theorem omap_bound_mono {c : OMap Nat} {n n' : Nat}
    (h : ∀ k id, omapGet c k = some id → id < n) (hle : n ≤ n') :
    ∀ k id, omapGet c k = some id → id < n' :=
  fun k id hk => Nat.lt_of_lt_of_le (h k id hk) hle

/-! ## Prepare-phase frame/monotonicity/validity -/

theorem prepOut_refl (s : PState) : PrepOut s s :=
  ⟨monoP_refl s, rfl, rfl, rfl, fun h => h⟩

theorem monoP_setMod_keep (s : PState) (i : Nat) (d : ModuleData)
    (hc : d.classes = (getMod s i).classes)
    (hi : d.interfaces = (getMod s i).interfaces)
    (ht : d.types = (getMod s i).types) : MonoP s (setMod s i d) := by
  refine ⟨fun k id h => h, Nat.le_refl _, ?_⟩
  intro mid hmid k
  by_cases hm : mid = i
  · subst hm
    rw [getMod_setMod_self, hc, hi, ht]
    exact ⟨id, id, id⟩
  · rw [getMod_setMod_ne _ _ _ _ hm]
    exact ⟨id, id, id⟩

theorem monoP_cacheCur (s : PState) (nc : OMap Nat) (c : Nat)
    (h : ∀ k id, omapGet s.namespaceCache k = some id → omapGet nc k = some id) :
    MonoP s { s with namespaceCache := nc, currentModule := c } :=
  ⟨h, Nat.le_refl _, fun _ _ _ => ⟨id, id, id⟩⟩

theorem monoP_setCur (s : PState) (c : Nat) :
    MonoP s { s with currentModule := c } :=
  ⟨fun _ _ h => h, Nat.le_refl _, fun _ _ _ => ⟨id, id, id⟩⟩

theorem monoP_alloc (s : PState) (d : ModuleData) : MonoP s (allocMod s d).2 := by
  refine ⟨fun k id h => h, Nat.le_succ _, ?_⟩
  intro mid hmid k
  rw [getMod_alloc_ne s d mid (Nat.ne_of_lt hmid)]
  exact ⟨id, id, id⟩

theorem valid_setCur (s : PState) (c : Nat) (h : Valid s) (hc : c < s.next) :
    Valid { s with currentModule := c } :=
  ⟨h.1, hc, h.2.2.1, h.2.2.2.1, h.2.2.2.2⟩

/-- Validity of the state that restores the saved current module after a
prepared module-block body. -/
theorem prep_valid_finish (s s3 s4 : PState) (hv3 : Valid s3) (hout : PrepOut s3 s4)
    (hcur : s.currentModule < s3.next) :
    Valid { s4 with currentModule := s.currentModule } :=
  valid_setCur s4 s.currentModule (hout.2.2.2.2 hv3)
    (Nat.lt_of_lt_of_le hcur hout.1.2.1)

theorem valid_alloc (s : PState) (d : ModuleData) (hmods : d.modules = [])
    (hv : Valid s) : Valid (allocMod s d).2 := by
  obtain ⟨h1, h2, h3, h4, h5⟩ := hv
  refine ⟨Nat.lt_succ_of_lt h1, Nat.lt_succ_of_lt h2,
    omap_bound_mono h3 (Nat.le_succ _), omap_bound_mono h4 (Nat.le_succ _), ?_⟩
  intro mid hmid k id hk
  by_cases hm : mid = s.next
  · subst hm
    rw [getMod_alloc_self, hmods] at hk
    simp [omapGet] at hk
  · rw [getMod_alloc_ne s d mid hm] at hk
    have hmlt : mid < s.next := by
      have := Nat.lt_succ_iff.mp hmid
      omega
    exact Nat.lt_succ_of_lt (h5 mid hmlt k id hk)

/-- Heap validity of the state after the module-block header (link the
child into the parent, cache it, enter it), for a child identifier that is
already in bounds. -/
theorem valid_module_header (s s1 : PState) (name : String) (childId : Nat)
    (hv1 : Valid s1) (hchild : childId < s1.next)
    (hcur : s1.currentModule = s.currentModule)
    (hcurlt : s.currentModule < s1.next) :
    Valid ({ setMod s1 s.currentModule
        { getMod s1 s.currentModule with
          modules := omapSet (getMod s1 s.currentModule).modules name childId } with
      namespaceCache := omapSet s1.namespaceCache name childId,
      currentModule := childId }) := by
  obtain ⟨h1, h2, h3, h4, h5⟩ := hv1
  refine ⟨h1, hchild, omap_bound_set name h3 hchild, h4, ?_⟩
  intro mid hmid k id hk
  replace hmid : mid < s1.next := hmid
  replace hk : omapGet
      (if mid = s.currentModule then
        ({ getMod s1 s.currentModule with
           modules := omapSet (getMod s1 s.currentModule).modules name childId } : ModuleData)
       else s1.store mid).modules k = some id := hk
  by_cases hm : mid = s.currentModule
  · rw [if_pos hm] at hk
    replace hk : omapGet (omapSet (getMod s1 s.currentModule).modules name childId) k = some id := hk
    exact omap_bound_set name (h5 _ hcurlt) hchild k id hk
  · rw [if_neg hm] at hk
    exact h5 mid hmid k id hk

/-- `_preparer` on a module block whose name is already cached: full
`PrepOut` guarantees, given the guarantees of preparing the body from any
state. -/
theorem preparer_module_cached (refs : RefManager) (fileName : String) (s : PState)
    (name : String) (stmts : List Stmt) (pos : LineCol) (cid : Nat)
    (hcache : omapGet s.namespaceCache name = some cid)
    (hrec : ∀ s', PrepOut s' (preparerList refs fileName s' stmts)) :
    PrepOut s (preparerStep refs fileName s (.moduleDecl name (some stmts) pos)) := by
  have hpres : ∀ k id, omapGet s.namespaceCache k = some id →
      omapGet (omapSet s.namespaceCache name cid) k = some id := by
    intro k id hk
    refine omapGet_set_some_preserved _ _ _ _ _ hk ?_
    intro he
    subst he
    rw [hcache] at hk
    exact (Option.some.inj hk)
  simp only [preparerStep, hcache]
  refine ⟨?_, ?_, ?_, ?_, ?_⟩
  · exact monoP_trans (monoP_trans (monoP_trans
      (monoP_setMod_keep s s.currentModule
        { getMod s s.currentModule with
          modules := omapSet (getMod s s.currentModule).modules name cid } rfl rfl rfl)
      (monoP_cacheCur
        (setMod s s.currentModule
          { getMod s s.currentModule with
            modules := omapSet (getMod s s.currentModule).modules name cid })
        (omapSet s.namespaceCache name cid) cid hpres)) (hrec _).1)
      (monoP_setCur _ s.currentModule)
  · rfl
  · exact ((hrec _).2.2.1).trans rfl
  · exact ((hrec _).2.2.2.1).trans rfl
  · intro hv
    have hcid : cid < s.next := hv.2.2.1 name cid hcache
    exact prep_valid_finish s _ _
      (valid_module_header s s name cid hv hcid rfl hv.2.1) (hrec _) hv.2.1

/-- `_preparer` on a module block whose name is not yet cached (first
encounter): full `PrepOut` guarantees. -/
theorem preparer_module_alloc (refs : RefManager) (fileName : String) (s : PState)
    (name : String) (stmts : List Stmt) (pos : LineCol)
    (hcache : omapGet s.namespaceCache name = none)
    (hrec : ∀ s', PrepOut s' (preparerList refs fileName s' stmts)) :
    PrepOut s (preparerStep refs fileName s (.moduleDecl name (some stmts) pos)) := by
  have hpres : ∀ k id, omapGet s.namespaceCache k = some id →
      omapGet (omapSet s.namespaceCache name s.next) k = some id := by
    intro k id hk
    refine omapGet_set_some_preserved _ _ _ _ _ hk ?_
    intro he
    subst he
    rw [hcache] at hk
    cases hk
  simp only [preparerStep, hcache, allocMod]
  refine ⟨?_, ?_, ?_, ?_, ?_⟩
  · exact monoP_trans (monoP_trans (monoP_trans (monoP_trans
      (monoP_alloc s (createModule name false
        ((getLOC (getMod s s.currentModule) pos fileName false).sourceFile) true))
      (monoP_setMod_keep
        (allocMod s (createModule name false
          ((getLOC (getMod s s.currentModule) pos fileName false).sourceFile) true)).2
        s.currentModule
        { getMod (allocMod s (createModule name false
            ((getLOC (getMod s s.currentModule) pos fileName false).sourceFile) true)).2
            s.currentModule with
          modules := omapSet (getMod (allocMod s (createModule name false
            ((getLOC (getMod s s.currentModule) pos fileName false).sourceFile) true)).2
            s.currentModule).modules name s.next } rfl rfl rfl))
      (monoP_cacheCur
        (setMod (allocMod s (createModule name false
            ((getLOC (getMod s s.currentModule) pos fileName false).sourceFile) true)).2
          s.currentModule
          { getMod (allocMod s (createModule name false
              ((getLOC (getMod s s.currentModule) pos fileName false).sourceFile) true)).2
              s.currentModule with
            modules := omapSet (getMod (allocMod s (createModule name false
              ((getLOC (getMod s s.currentModule) pos fileName false).sourceFile) true)).2
              s.currentModule).modules name s.next })
        (omapSet s.namespaceCache name s.next) s.next hpres)) (hrec _).1)
      (monoP_setCur _ s.currentModule)
  · rfl
  · exact ((hrec _).2.2.1).trans rfl
  · exact ((hrec _).2.2.2.1).trans rfl
  · intro hv
    have hv1 : Valid (allocMod s (createModule name false
        ((getLOC (getMod s s.currentModule) pos fileName false).sourceFile) true)).2 :=
      valid_alloc s _ rfl hv
    exact prep_valid_finish s _ _
      (valid_module_header s _ name s.next hv1 (Nat.lt_succ_self _) rfl
        (Nat.lt_succ_of_lt hv.2.1))
      (hrec _) (Nat.lt_succ_of_lt hv.2.1)

mutual

/-- Each Prepare-phase step satisfies the full `PrepOut` guarantees. -/
theorem preparer_props (refs : RefManager) (fileName : String) (s : PState) (st : Stmt) :
    PrepOut s (preparerStep refs fileName s st) := by
  cases st with
  | varStatement mods decls jsDoc pos => exact prepOut_refl s
  | functionDecl name mods tps params ty csig jsDoc pos => exact prepOut_refl s
  | otherStmt => exact prepOut_refl s
  | classDecl name mods tps members her jsDoc pos =>
    refine ⟨?_, rfl, rfl, rfl, ?_⟩
    · exact monoP_updCurrent s _
        (fun k h => omapGet_set_isSome _ _ _ _ h) (fun k h => h) (fun k h => h)
    · exact fun hv => valid_updCurrent_nomod s _ rfl hv
  | interfaceDecl name mods tps members her jsDoc pos =>
    rcases hx : omapGet (getMod s s.currentModule).interfaces name with _ | existing
    all_goals simp only [preparerStep, hx]
    all_goals refine ⟨?_, rfl, rfl, rfl, ?_⟩
    · exact monoP_updCurrent s _
        (fun k h => h) (fun k h => omapGet_set_isSome _ _ _ _ h) (fun k h => h)
    · exact fun hv => valid_updCurrent_nomod s _ rfl hv
    · exact monoP_updCurrent s _
        (fun k h => h) (fun k h => omapGet_set_isSome _ _ _ _ h) (fun k h => h)
    · exact fun hv => valid_updCurrent_nomod s _ rfl hv
  | enumDecl name mods members jsDoc pos =>
    rcases hx : omapGet (getMod s s.currentModule).enums name with _ | existing
    all_goals simp only [preparerStep, hx]
    all_goals refine ⟨?_, rfl, rfl, rfl, ?_⟩
    · exact monoP_updCurrent s _ (fun k h => h) (fun k h => h) (fun k h => h)
    · exact fun hv => valid_updCurrent_nomod s _ rfl hv
    · exact monoP_updCurrent s _ (fun k h => h) (fun k h => h) (fun k h => h)
    · exact fun hv => valid_updCurrent_nomod s _ rfl hv
  | typeAliasDecl name mods ty jsDoc pos =>
    refine ⟨?_, rfl, rfl, rfl, ?_⟩
    · exact monoP_updCurrent s _
        (fun k h => h) (fun k h => h) (fun k h => omapGet_set_isSome _ _ _ _ h)
    · exact fun hv => valid_updCurrent_nomod s _ rfl hv
  | moduleDecl name body pos =>
    cases body with
    | none => exact prepOut_refl s
    | some stmts =>
      rcases hcache : omapGet s.namespaceCache name with _ | cid
      · exact preparer_module_alloc refs fileName s name stmts pos hcache
          (fun s' => preparerList_props refs fileName s' stmts)
      · exact preparer_module_cached refs fileName s name stmts pos cid hcache
          (fun s' => preparerList_props refs fileName s' stmts)
termination_by structural st

/-- The Prepare-phase statement loop satisfies the full `PrepOut`
guarantees. -/
theorem preparerList_props (refs : RefManager) (fileName : String) (s : PState)
    (l : List Stmt) : PrepOut s (preparerList refs fileName s l) := by
  cases l with
  | nil => exact prepOut_refl s
  | cons st rest =>
    have h1 := preparer_props refs fileName s st
    have h2 := preparerList_props refs fileName (preparerStep refs fileName s st) rest
    exact ⟨monoP_trans h1.1 h2.1, h2.2.1.trans h1.2.1, h2.2.2.1.trans h1.2.2.1,
      h2.2.2.2.1.trans h1.2.2.2.1, fun hv => h2.2.2.2.2 (h1.2.2.2.2 hv)⟩
termination_by structural l

end

/-! ## Readiness transport -/

theorem storeUpd_self (s : PState) (f : ModuleData → ModuleData) :
    (updCurrent s f).store s.currentModule = f (getMod s s.currentModule) := by
  simp [updCurrent, setMod]

theorem storeUpd_ne (s : PState) (f : ModuleData → ModuleData) (mid : Nat)
    (h : mid ≠ s.currentModule) : (updCurrent s f).store mid = s.store mid := by
  simp [updCurrent, setMod, h]

mutual

/-- Readiness of a statement survives any Prepare-phase-monotone state
change, for a module identifier below the old allocation bound. -/
theorem ready_monoP (s s' : PState) (hm : MonoP s s') (mid : Nat) (hmid : mid < s.next)
    (st : Stmt) (hr : ReadyStmt s.store s.namespaceCache s.next mid st) :
    ReadyStmt s'.store s'.namespaceCache s'.next mid st := by
  cases st with
  | classDecl name mods tps members her jsDoc pos => exact (hm.2.2 mid hmid _).1 hr
  | interfaceDecl name mods tps members her jsDoc pos => exact (hm.2.2 mid hmid _).2.1 hr
  | typeAliasDecl name mods ty jsDoc pos => exact (hm.2.2 mid hmid _).2.2 hr
  | moduleDecl name body pos =>
    cases body with
    | none => exact trivial
    | some stmts =>
      obtain ⟨cid, hc, hlt, hready⟩ := hr
      exact ⟨cid, hm.1 _ _ hc, Nat.lt_of_lt_of_le hlt hm.2.1,
        ready_monoP_list s s' hm cid hlt stmts hready⟩
  | varStatement mods decls jsDoc pos => exact trivial
  | enumDecl name mods members jsDoc pos => exact trivial
  | functionDecl name mods tps params ty csig jsDoc pos => exact trivial
  | otherStmt => exact trivial
termination_by structural st

/-- `ready_monoP` over a statement list. -/
theorem ready_monoP_list (s s' : PState) (hm : MonoP s s') (mid : Nat) (hmid : mid < s.next)
    (l : List Stmt) (hr : ReadyList s.store s.namespaceCache s.next mid l) :
    ReadyList s'.store s'.namespaceCache s'.next mid l := by
  cases l with
  | nil => exact trivial
  | cons st rest =>
    exact ⟨ready_monoP s s' hm mid hmid st hr.1, ready_monoP_list s s' hm mid hmid rest hr.2⟩
termination_by structural l

end

mutual

/-- Readiness of a statement survives any Visit-phase-monotone state
change. -/
theorem ready_monoV (s s' : PState) (hm : MonoV s s') (mid : Nat)
    (st : Stmt) (hr : ReadyStmt s.store s.namespaceCache s.next mid st) :
    ReadyStmt s'.store s'.namespaceCache s'.next mid st := by
  cases st with
  | classDecl name mods tps members her jsDoc pos => exact (hm.2.2 mid _).1 hr
  | interfaceDecl name mods tps members her jsDoc pos => exact (hm.2.2 mid _).2.1 hr
  | typeAliasDecl name mods ty jsDoc pos => exact (hm.2.2 mid _).2.2 hr
  | moduleDecl name body pos =>
    cases body with
    | none => exact trivial
    | some stmts =>
      obtain ⟨cid, hc, hlt, hready⟩ := hr
      refine ⟨cid, ?_, ?_, ready_monoV_list s s' hm cid stmts hready⟩
      · rw [hm.1]; exact hc
      · rw [hm.2.1]; exact hlt
  | varStatement mods decls jsDoc pos => exact trivial
  | enumDecl name mods members jsDoc pos => exact trivial
  | functionDecl name mods tps params ty csig jsDoc pos => exact trivial
  | otherStmt => exact trivial
termination_by structural st

/-- `ready_monoV` over a statement list. -/
theorem ready_monoV_list (s s' : PState) (hm : MonoV s s') (mid : Nat)
    (l : List Stmt) (hr : ReadyList s.store s.namespaceCache s.next mid l) :
    ReadyList s'.store s'.namespaceCache s'.next mid l := by
  cases l with
  | nil => exact trivial
  | cons st rest =>
    exact ⟨ready_monoV s s' hm mid st hr.1, ready_monoV_list s s' hm mid rest hr.2⟩
termination_by structural l

end

/-! ## The Prepare phase establishes readiness -/

theorem lt_next_of_prepOut (cid : Nat) (s3 s4 : PState) (h : PrepOut s3 s4)
    (hlt : cid < s3.next) : cid < s4.next :=
  Nat.lt_of_lt_of_le hlt h.1.2.1

theorem cache_after_prepOut (name : String) (cid : Nat) (s3 s4 : PState)
    (h : PrepOut s3 s4) (hc : omapGet s3.namespaceCache name = some cid) :
    omapGet s4.namespaceCache name = some cid :=
  h.1.1 name cid hc

/-- The module-block header plus prepared body leaves the block ready, when
the name was already cached. -/
theorem prepare_module_est_cached (refs : RefManager) (fileName : String) (s : PState)
    (name : String) (stmts : List Stmt) (pos : LineCol) (cid : Nat)
    (hcache : omapGet s.namespaceCache name = some cid) (hv : Valid s)
    (hrecEst : ∀ s', Valid s' →
      ReadyList (preparerList refs fileName s' stmts).store
        (preparerList refs fileName s' stmts).namespaceCache
        (preparerList refs fileName s' stmts).next s'.currentModule stmts) :
    ReadyStmt (preparerStep refs fileName s (.moduleDecl name (some stmts) pos)).store
      (preparerStep refs fileName s (.moduleDecl name (some stmts) pos)).namespaceCache
      (preparerStep refs fileName s (.moduleDecl name (some stmts) pos)).next
      s.currentModule (.moduleDecl name (some stmts) pos) := by
  simp only [preparerStep, hcache, ReadyStmt]
  refine ⟨cid, ?_, ?_, ?_⟩
  · exact cache_after_prepOut name cid _ _ (preparerList_props refs fileName _ stmts)
      (omapGet_set_eq _ _ _)
  · exact lt_next_of_prepOut cid _ _ (preparerList_props refs fileName _ stmts)
      (hv.2.2.1 name cid hcache)
  · exact hrecEst _ (valid_module_header s s name cid hv (hv.2.2.1 name cid hcache) rfl hv.2.1)

/-- The module-block header plus prepared body leaves the block ready, when
the name was not yet cached (first encounter). -/
theorem prepare_module_est_alloc (refs : RefManager) (fileName : String) (s : PState)
    (name : String) (stmts : List Stmt) (pos : LineCol)
    (hcache : omapGet s.namespaceCache name = none) (hv : Valid s)
    (hrecEst : ∀ s', Valid s' →
      ReadyList (preparerList refs fileName s' stmts).store
        (preparerList refs fileName s' stmts).namespaceCache
        (preparerList refs fileName s' stmts).next s'.currentModule stmts) :
    ReadyStmt (preparerStep refs fileName s (.moduleDecl name (some stmts) pos)).store
      (preparerStep refs fileName s (.moduleDecl name (some stmts) pos)).namespaceCache
      (preparerStep refs fileName s (.moduleDecl name (some stmts) pos)).next
      s.currentModule (.moduleDecl name (some stmts) pos) := by
  have hv1 : Valid (allocMod s (createModule name false
      ((getLOC (getMod s s.currentModule) pos fileName false).sourceFile) true)).2 :=
    valid_alloc s _ rfl hv
  simp only [preparerStep, hcache, allocMod, ReadyStmt]
  refine ⟨s.next, ?_, ?_, ?_⟩
  · exact cache_after_prepOut name s.next _ _ (preparerList_props refs fileName _ stmts)
      (omapGet_set_eq _ _ _)
  · exact lt_next_of_prepOut s.next _ _ (preparerList_props refs fileName _ stmts)
      (Nat.lt_succ_self s.next)
  · exact hrecEst _ (valid_module_header s _ name s.next hv1 (Nat.lt_succ_self _) rfl
      (Nat.lt_succ_of_lt hv.2.1))

mutual

/-- After `_preparer` runs on a statement (from a valid state, for
well-formed syntax), the statement is ready for the Visit phase in the
current module. -/
theorem prepare_establishes (refs : RefManager) (fileName : String) (s : PState)
    (st : Stmt) (hv : Valid s) (hw : WfStmt st) :
    ReadyStmt (preparerStep refs fileName s st).store
      (preparerStep refs fileName s st).namespaceCache
      (preparerStep refs fileName s st).next s.currentModule st := by
  cases st with
  | classDecl name mods tps members her jsDoc pos =>
    have hkey : jsOrDefault name "export default" = prepareNameKey name := by
      cases name with
      | none => rfl
      | some t =>
        have ht : ¬ t = "" := fun h => hw (by rw [h])
        simp [jsOrDefault, prepareNameKey, ht]
    simp only [preparerStep, ReadyStmt]
    rw [storeUpd_self]
    dsimp only
    rw [hkey, omapGet_set_eq]
    rfl
  | interfaceDecl name mods tps members her jsDoc pos =>
    rcases hx : omapGet (getMod s s.currentModule).interfaces name with _ | existing
    all_goals simp only [preparerStep, hx, ReadyStmt]
    all_goals rw [storeUpd_self]
    all_goals dsimp only
    all_goals rw [omapGet_set_eq]
    all_goals rfl
  | typeAliasDecl name mods ty jsDoc pos =>
    simp only [preparerStep, ReadyStmt]
    rw [storeUpd_self]
    dsimp only
    rw [omapGet_set_eq]
    rfl
  | enumDecl name mods members jsDoc pos => exact trivial
  | varStatement mods decls jsDoc pos => exact trivial
  | functionDecl name mods tps params ty csig jsDoc pos => exact trivial
  | otherStmt => exact trivial
  | moduleDecl name body pos =>
    cases body with
    | none => exact trivial
    | some stmts =>
      rcases hcache : omapGet s.namespaceCache name with _ | cid
      · exact prepare_module_est_alloc refs fileName s name stmts pos hcache hv
          (fun s' hv' => prepare_establishes_list refs fileName s' stmts hv' hw)
      · exact prepare_module_est_cached refs fileName s name stmts pos cid hcache hv
          (fun s' hv' => prepare_establishes_list refs fileName s' stmts hv' hw)
termination_by structural st

/-- `prepare_establishes` over the statement loop: every statement of the
list is ready after the whole list has been prepared. -/
theorem prepare_establishes_list (refs : RefManager) (fileName : String) (s : PState)
    (l : List Stmt) (hv : Valid s) (hw : WfList l) :
    ReadyList (preparerList refs fileName s l).store
      (preparerList refs fileName s l).namespaceCache
      (preparerList refs fileName s l).next s.currentModule l := by
  cases l with
  | nil => exact trivial
  | cons st rest =>
    have hst := prepare_establishes refs fileName s st hv hw.1
    have hs1v : Valid (preparerStep refs fileName s st) :=
      (preparer_props refs fileName s st).2.2.2.2 hv
    have hrest := prepare_establishes_list refs fileName
      (preparerStep refs fileName s st) rest hs1v hw.2
    refine ⟨?_, ?_⟩
    · have hmid : s.currentModule < (preparerStep refs fileName s st).next :=
        Nat.lt_of_lt_of_le hv.2.1 (preparer_props refs fileName s st).1.2.1
      exact ready_monoP _ _
        (preparerList_props refs fileName (preparerStep refs fileName s st) rest).1
        s.currentModule hmid st hst
    · have hcur : (preparerStep refs fileName s st).currentModule = s.currentModule :=
        (preparer_props refs fileName s st).2.1
      rw [← hcur]
      exact hrest
termination_by structural l

end

/-! ## Visit-phase success -/

theorem visitOut_refl (s : PState) : VisitOut s s := ⟨monoV_refl s, rfl, rfl⟩

theorem visitOut_updCurrent (s : PState) (f : ModuleData → ModuleData)
    (hc : ∀ k, (omapGet (getMod s s.currentModule).classes k).isSome = true →
      (omapGet (f (getMod s s.currentModule)).classes k).isSome = true)
    (hi : ∀ k, (omapGet (getMod s s.currentModule).interfaces k).isSome = true →
      (omapGet (f (getMod s s.currentModule)).interfaces k).isSome = true)
    (ht : ∀ k, (omapGet (getMod s s.currentModule).types k).isSome = true →
      (omapGet (f (getMod s s.currentModule)).types k).isSome = true) :
    VisitOut s (updCurrent s f) := by
  refine ⟨⟨rfl, rfl, ?_⟩, rfl, rfl⟩
  intro mid k
  by_cases hm : mid = s.currentModule
  · subst hm
    rw [getMod_updCurrent_self]
    exact ⟨hc k, hi k, ht k⟩
  · rw [getMod_updCurrent_ne s f mid hm]
    exact ⟨id, id, id⟩

/-- `handleVariableDeclaration` only touches the constants list of the
current module. -/
theorem visitOut_handleVariable (refs : RefManager) (fileName : String) (s : PState)
    (decls : List VarDeclarator) (jsDoc : List JSDocNode) :
    VisitOut s (handleVariableDeclaration refs fileName s decls jsDoc) := by
  simp only [handleVariableDeclaration]
  exact visitOut_updCurrent s _ (fun k h => h) (fun k h => h) (fun k h => h)

/-- `handleFunctionDeclaration` only touches the functions map of the
current module. -/
theorem visitOut_handleFunction (refs : RefManager) (fileName : String) (s : PState)
    (name? : Option String) (tps : Option (List TypeParameterDecl))
    (params : List ParameterDecl) (ty : Option TypeNode)
    (csig : Option InferredSignature) (jsDoc : List JSDocNode) (pos : LineCol) :
    VisitOut s (handleFunctionDeclaration refs fileName s name? tps params ty csig jsDoc pos) := by
  rcases hx : omapGet (getMod s s.currentModule).functions (prepareNameKey name?) with _ | fn
  all_goals simp only [handleFunctionDeclaration, hx]
  · exact visitOut_updCurrent s _ (fun k h => h) (fun k h => h) (fun k h => h)
  · exact visitOut_updCurrent s _ (fun k h => h) (fun k h => h) (fun k h => h)

mutual

/-- If a statement is ready in the current module, visiting it succeeds and
the resulting state is Visit-monotone with the current module and file
cache untouched. -/
theorem visitor_success (refs : RefManager) (fileName : String) (s : PState) (st : Stmt)
    (hr : ReadyStmt s.store s.namespaceCache s.next s.currentModule st) :
    ∃ s', visitorStep refs fileName s st = .ok s' ∧ VisitOut s s' := by
  cases st with
  | varStatement mods decls jsDoc pos =>
    cases hx : (hasModifier mods Modifier.exportKw).getD false with
    | false =>
      refine ⟨s, ?_, visitOut_refl s⟩
      simp only [visitorStep, hx]
      rfl
    | true =>
      refine ⟨_, ?_, visitOut_handleVariable refs fileName s decls jsDoc⟩
      simp only [visitorStep, hx]
      rfl
  | functionDecl name mods tps params ty csig jsDoc pos =>
    cases hx : (hasModifier mods Modifier.exportKw).getD false with
    | false =>
      refine ⟨s, ?_, visitOut_refl s⟩
      simp only [visitorStep, hx]
      rfl
    | true =>
      refine ⟨_, ?_, visitOut_handleFunction refs fileName s name tps params ty csig jsDoc pos⟩
      simp only [visitorStep, hx]
      rfl
  | classDecl name mods tps members her jsDoc pos =>
    have hr' : (omapGet (getMod s s.currentModule).classes
        (jsOrDefault name "export default")).isSome = true := hr
    obtain ⟨res, hres⟩ := Option.isSome_iff_exists.mp hr'
    simp only [visitorStep, handleClassDeclaration, hres]
    refine ⟨_, rfl, ?_⟩
    exact visitOut_updCurrent s _
      (fun k h => omapGet_set_isSome _ _ _ _ h) (fun k h => h) (fun k h => h)
  | interfaceDecl name mods tps members her jsDoc pos =>
    have hr' : (omapGet (getMod s s.currentModule).interfaces name).isSome = true := hr
    obtain ⟨res, hres⟩ := Option.isSome_iff_exists.mp hr'
    simp only [visitorStep, handleInterfaceDeclaration, hres]
    refine ⟨_, rfl, ?_⟩
    exact visitOut_updCurrent s _
      (fun k h => h) (fun k h => omapGet_set_isSome _ _ _ _ h) (fun k h => h)
  | typeAliasDecl name mods ty jsDoc pos =>
    have hr' : (omapGet (getMod s s.currentModule).types name).isSome = true := hr
    obtain ⟨decl, hdecl⟩ := Option.isSome_iff_exists.mp hr'
    simp only [visitorStep, handleTypeDeclaration, hdecl]
    refine ⟨_, rfl, ?_⟩
    exact visitOut_updCurrent s _
      (fun k h => h) (fun k h => h) (fun k h => omapGet_set_isSome _ _ _ _ h)
  | enumDecl name mods members jsDoc pos => exact ⟨s, rfl, visitOut_refl s⟩
  | otherStmt => exact ⟨s, rfl, visitOut_refl s⟩
  | moduleDecl name body pos =>
    cases body with
    | none => exact ⟨s, rfl, visitOut_refl s⟩
    | some stmts =>
      obtain ⟨cid, hc, hlt, hready⟩ := hr
      obtain ⟨s', hs', hout⟩ :=
        visitor_success_list refs fileName { s with currentModule := cid } stmts hready
      refine ⟨{ s' with currentModule := s.currentModule }, ?_, ?_⟩
      · simp only [visitorStep, hc, hs']
      · exact ⟨⟨hout.1.1, hout.1.2.1, hout.1.2.2⟩, rfl, hout.2.2⟩
termination_by structural st

/-- `visitor_success` over the Visit-phase statement loop. -/
theorem visitor_success_list (refs : RefManager) (fileName : String) (s : PState)
    (l : List Stmt)
    (hr : ReadyList s.store s.namespaceCache s.next s.currentModule l) :
    ∃ s', visitorList refs fileName s l = .ok s' ∧ VisitOut s s' := by
  cases l with
  | nil => exact ⟨s, rfl, visitOut_refl s⟩
  | cons st rest =>
    obtain ⟨s1, hs1, hout1⟩ := visitor_success refs fileName s st hr.1
    have hr2 : ReadyList s1.store s1.namespaceCache s1.next s1.currentModule rest := by
      rw [hout1.2.1]
      exact ready_monoV_list s s1 hout1.1 s.currentModule rest hr.2
    obtain ⟨s2, hs2, hout2⟩ := visitor_success_list refs fileName s1 rest hr2
    refine ⟨s2, ?_, ?_⟩
    · simp only [visitorList, hs1, hs2]
    · exact ⟨monoV_trans hout1.1 hout2.1, hout2.2.1.trans hout1.2.1,
        hout2.2.2.trans hout1.2.2⟩
termination_by structural l

end

/-! ## File-level composition -/

theorem valid_link_child (s1 : PState) (i : Nat) (name : String) (childId : Nat)
    (hv1 : Valid s1) (hchild : childId < s1.next) (hi : i < s1.next) :
    Valid (setMod s1 i
      { getMod s1 i with modules := omapSet (getMod s1 i).modules name childId }) := by
  obtain ⟨h1, h2, h3, h4, h5⟩ := hv1
  refine ⟨h1, h2, h3, h4, ?_⟩
  intro mid hmid k id hk
  replace hmid : mid < s1.next := hmid
  replace hk : omapGet
      (if mid = i then
        ({ getMod s1 i with modules := omapSet (getMod s1 i).modules name childId } : ModuleData)
       else s1.store mid).modules k = some id := hk
  by_cases hm : mid = i
  · rw [if_pos hm] at hk
    replace hk : omapGet (omapSet (getMod s1 i).modules name childId) k = some id := hk
    exact omap_bound_set name (h5 i hi) hchild k id hk
  · rw [if_neg hm] at hk
    exact h5 mid hmid k id hk

/-- Walking/creating directory modules preserves heap validity, produces an
in-bounds module, and leaves the current module, caches and root
untouched. -/
theorem walk_props (s : PState) (last : Nat) (parts : List String)
    (hv : Valid s) (hlast : last < s.next) :
    Valid (walkPathParts s last parts).2 ∧
    (walkPathParts s last parts).1 < (walkPathParts s last parts).2.next ∧
    (walkPathParts s last parts).2.currentModule = s.currentModule ∧
    (walkPathParts s last parts).2.moduleCache = s.moduleCache ∧
    (walkPathParts s last parts).2.namespaceCache = s.namespaceCache ∧
    (walkPathParts s last parts).2.rootId = s.rootId := by
  induction parts generalizing s last with
  | nil => exact ⟨hv, hlast, rfl, rfl, rfl, rfl⟩
  | cons part rest ih =>
    rcases hx : omapGet (getMod s last).modules part with _ | newLastMod
    · simp only [walkPathParts, hx, allocMod]
      have hv1 : Valid (allocMod s (createModule part false
          (some (jsTemplateStr (getMod s last).repository ++ "/" ++ part)))).2 :=
        valid_alloc s _ rfl hv
      have hv2 := valid_link_child
        (allocMod s (createModule part false
          (some (jsTemplateStr (getMod s last).repository ++ "/" ++ part)))).2
        last part s.next hv1 (Nat.lt_succ_self _) (Nat.lt_succ_of_lt hlast)
      exact ih _ s.next hv2 (Nat.lt_succ_self s.next)
    · simp only [walkPathParts, hx]
      have hnew : newLastMod < s.next := hv.2.2.2.2 last hlast part newLastMod hx
      exact ih s newLastMod hv hnew

/-- `moduleFromFile` preserves heap validity, returns an in-bounds module,
and leaves the current module, caches and root untouched. -/
theorem moduleFromFile_props (s : PState) (fileName : String) (hv : Valid s) :
    Valid (moduleFromFile s fileName).2 ∧
    (moduleFromFile s fileName).1 < (moduleFromFile s fileName).2.next ∧
    (moduleFromFile s fileName).2.currentModule = s.currentModule ∧
    (moduleFromFile s fileName).2.moduleCache = s.moduleCache ∧
    (moduleFromFile s fileName).2.namespaceCache = s.namespaceCache ∧
    (moduleFromFile s fileName).2.rootId = s.rootId := by
  simp only [moduleFromFile]
  split
  · exact ⟨hv, hv.1, rfl, rfl, rfl, rfl⟩
  · exact walk_props s s.rootId _ hv hv.1

/-- After `runPreparerOnFile`, the file cache resolves the file to its
module and every statement of the file is ready there. -/
theorem runPreparer_out (refs : RefManager) (s : PState) (file : SourceFile)
    (hv : Valid s) (hw : WfList file.statements) :
    omapGet (runPreparerOnFile refs s file).moduleCache file.fileName =
      some (moduleFromFile s file.fileName).1 ∧
    ReadyList (runPreparerOnFile refs s file).store
      (runPreparerOnFile refs s file).namespaceCache
      (runPreparerOnFile refs s file).next
      (moduleFromFile s file.fileName).1 file.statements := by
  have hm := moduleFromFile_props s file.fileName hv
  have hv2 : Valid { (moduleFromFile s file.fileName).2 with
      currentModule := (moduleFromFile s file.fileName).1,
      moduleCache := omapSet (moduleFromFile s file.fileName).2.moduleCache
        file.fileName (moduleFromFile s file.fileName).1 } := by
    obtain ⟨⟨g1, g2, g3, g4, g5⟩, hb, _, _, _, _⟩ := hm
    exact ⟨g1, hb, g3, omap_bound_set file.fileName g4 hb, g5⟩
  constructor
  · have h1 : (runPreparerOnFile refs s file).moduleCache =
        omapSet (moduleFromFile s file.fileName).2.moduleCache file.fileName
          (moduleFromFile s file.fileName).1 :=
      (preparerList_props refs file.fileName _ file.statements).2.2.1
    rw [h1]
    exact omapGet_set_eq _ _ _
  · exact prepare_establishes_list refs file.fileName _ file.statements hv2 hw

/-! ## Child-module entry preservation during Prepare -/

/-- The module-block header writes its own cached/fresh identifier, so a
cache-consistent child entry survives it. -/
theorem modentry_header (s1 : PState) (cur : Nat) (name : String) (childId : Nat)
    (k : String) (id mid : Nat)
    (hentry : omapGet (getMod s1 mid).modules k = some id)
    (hsame : k = name → childId = id) :
    omapGet (getMod (setMod s1 cur
      { getMod s1 cur with modules := omapSet (getMod s1 cur).modules name childId }) mid).modules
      k = some id := by
  by_cases hm : mid = cur
  · subst hm
    rw [getMod_setMod_self]
    replace hentry : omapGet (getMod s1 mid).modules k = some id := hentry
    exact omapGet_set_some_preserved _ _ _ _ _ hentry (fun he => hsame he.symm)
  · rw [getMod_setMod_ne _ _ _ _ hm]
    exact hentry

mutual

/-- A child-module entry that agrees with the namespace cache is preserved
by every Prepare-phase step (for an already-allocated module). -/
theorem preparer_modentry (refs : RefManager) (fileName : String) (s : PState) (st : Stmt)
    (k : String) (id mid : Nat) (hmid : mid < s.next)
    (hcache : omapGet s.namespaceCache k = some id)
    (hentry : omapGet (getMod s mid).modules k = some id) :
    omapGet (getMod (preparerStep refs fileName s st) mid).modules k = some id := by
  cases st with
  | varStatement mods decls jsDoc pos => exact hentry
  | functionDecl name mods tps params ty csig jsDoc pos => exact hentry
  | otherStmt => exact hentry
  | classDecl name mods tps members her jsDoc pos =>
    simp only [preparerStep]
    by_cases hm : mid = s.currentModule
    · subst hm
      rw [getMod_updCurrent_self]
      exact hentry
    · rw [getMod_updCurrent_ne _ _ _ hm]
      exact hentry
  | interfaceDecl name mods tps members her jsDoc pos =>
    rcases hx : omapGet (getMod s s.currentModule).interfaces name with _ | existing
    all_goals simp only [preparerStep, hx]
    all_goals by_cases hm : mid = s.currentModule
    · subst hm; rw [getMod_updCurrent_self]; exact hentry
    · rw [getMod_updCurrent_ne _ _ _ hm]; exact hentry
    · subst hm; rw [getMod_updCurrent_self]; exact hentry
    · rw [getMod_updCurrent_ne _ _ _ hm]; exact hentry
  | enumDecl name mods members jsDoc pos =>
    rcases hx : omapGet (getMod s s.currentModule).enums name with _ | existing
    all_goals simp only [preparerStep, hx]
    all_goals by_cases hm : mid = s.currentModule
    · subst hm; rw [getMod_updCurrent_self]; exact hentry
    · rw [getMod_updCurrent_ne _ _ _ hm]; exact hentry
    · subst hm; rw [getMod_updCurrent_self]; exact hentry
    · rw [getMod_updCurrent_ne _ _ _ hm]; exact hentry
  | typeAliasDecl name mods ty jsDoc pos =>
    simp only [preparerStep]
    by_cases hm : mid = s.currentModule
    · subst hm; rw [getMod_updCurrent_self]; exact hentry
    · rw [getMod_updCurrent_ne _ _ _ hm]; exact hentry
  | moduleDecl name body pos =>
    cases body with
    | none => exact hentry
    | some stmts =>
      rcases hcacheN : omapGet s.namespaceCache name with _ | cid
      · -- first encounter of `name`: k cannot be `name`
        have hkn : k ≠ name := fun he => by rw [he, hcacheN] at hcache; cases hcache
        simp only [preparerStep, hcacheN, allocMod]
        have hentry1 : omapGet (getMod (allocMod s (createModule name false
            ((getLOC (getMod s s.currentModule) pos fileName false).sourceFile) true)).2
            mid).modules k = some id := by
          rw [getMod_alloc_ne s _ mid (Nat.ne_of_lt hmid)]
          exact hentry
        have hentry2 := modentry_header _ s.currentModule name s.next k id mid hentry1
          (fun he => absurd he hkn)
        have hcache3 : omapGet (omapSet s.namespaceCache name s.next) k = some id :=
          omapGet_set_some_preserved _ _ _ _ _ hcache (fun he => absurd he.symm hkn)
        exact preparer_modentry_list refs fileName _ stmts k id mid
          (Nat.lt_succ_of_lt hmid) hcache3 hentry2
      · -- cached: the header rewrites `name` to the same identifier
        have hsame : k = name → cid = id := fun he => by
          rw [he, hcacheN] at hcache
          exact Option.some.inj hcache
        simp only [preparerStep, hcacheN]
        have hentry2 := modentry_header s s.currentModule name cid k id mid hentry hsame
        have hcache3 : omapGet (omapSet s.namespaceCache name cid) k = some id :=
          omapGet_set_some_preserved _ _ _ _ _ hcache
            (fun he => (hsame he.symm).symm ▸ rfl)
        exact preparer_modentry_list refs fileName _ stmts k id mid hmid hcache3 hentry2
termination_by structural st

/-- `preparer_modentry` over the statement loop. -/
theorem preparer_modentry_list (refs : RefManager) (fileName : String) (s : PState)
    (l : List Stmt) (k : String) (id mid : Nat) (hmid : mid < s.next)
    (hcache : omapGet s.namespaceCache k = some id)
    (hentry : omapGet (getMod s mid).modules k = some id) :
    omapGet (getMod (preparerList refs fileName s l) mid).modules k = some id := by
  cases l with
  | nil => exact hentry
  | cons st rest =>
    have h1 := preparer_modentry refs fileName s st k id mid hmid hcache hentry
    have hprops := preparer_props refs fileName s st
    exact preparer_modentry_list refs fileName (preparerStep refs fileName s st) rest k id mid
      (Nat.lt_of_lt_of_le hmid hprops.1.2.1) (hprops.1.1 k id hcache) h1
termination_by structural l

end

/-! ## Serializer count lemmas -/

mutual

theorem countJSON_moduleToJSON (m : ModuleTree) :
    countJSON (moduleToJSON m) = countTree m := by
  cases m with
  | mk name repo isNs cls ifs ens tys fns cons mods =>
    simp only [moduleToJSON, countJSON, countTree, omapValues, List.length_map]
    rw [countJSONList_moduleToJSONList mods]
termination_by structural m

theorem countJSONList_moduleToJSONList (l : List (String × ModuleTree)) :
    countJSONList (moduleToJSONList l) = countTreeList l := by
  cases l with
  | nil => rfl
  | cons p rest =>
    obtain ⟨k, m⟩ := p
    simp only [moduleToJSONList, countJSONList, countTreeList]
    rw [countJSON_moduleToJSON m, countJSONList_moduleToJSONList rest]
termination_by structural l

end

theorem moduleToJSONList_eq_map (l : List (String × ModuleTree)) :
    moduleToJSONList l = (omapValues l).map moduleToJSON := by
  induction l with
  | nil => rfl
  | cons p rest ih =>
    obtain ⟨k, m⟩ := p
    simp only [moduleToJSONList, omapValues, List.map]
    rw [ih]
    rfl

/-! ## String lemmas for truncation and path splitting -/

theorem jsLength_mk_append (a : List Char) (b : String) :
    jsLength (String.mk a ++ b) = a.length + jsLength b := by
  cases b with
  | mk bd =>
    show (String.mk a ++ String.mk bd).data.length = a.length + bd.length
    have h : (String.mk a ++ String.mk bd).data = a ++ bd := rfl
    rw [h, List.length_append]

theorem lastIndexOfAux_eq (cs : List Char) (c : Char) (h : ∀ x ∈ cs, x ≠ c) :
    ∀ (i : Nat) (b : Option Nat), lastIndexOfAux cs c i b = b := by
  induction cs with
  | nil => intro i b; rfl
  | cons x xs ih =>
    intro i b
    have hx : x ≠ c := h x (List.mem_cons_self x xs)
    simp only [lastIndexOfAux, if_neg hx]
    exact ih (fun y hy => h y (List.mem_cons_of_mem x hy)) (i + 1) b

theorem getLastItemFromPath_no_backslash (s : String)
    (h : ∀ c ∈ s.data, c ≠ '\\') : getLastItemFromPath s = s := by
  have hidx : jsLastIndexOf s '\\' = -1 := by
    unfold jsLastIndexOf
    rw [lastIndexOfAux_eq s.data '\\' h 0 none]
  unfold getLastItemFromPath
  rw [hidx]
  show String.mk (s.data.drop 0) = s
  cases s with
  | mk d => rfl

/-! ## A valid initial extractor state -/

theorem valid_simple_init (root : ModuleData) (bd : String) (hroot : root.modules = []) :
    Valid { store := fun _ => root, next := 1, rootId := 0, currentModule := 0,
            moduleCache := [], namespaceCache := [], baseDir := bd } := by
  refine ⟨Nat.one_pos, Nat.one_pos, ?_, ?_, ?_⟩
  · intro k id h
    simp [omapGet] at h
  · intro k id h
    simp [omapGet] at h
  · intro mid hmid k id hk
    replace hk : omapGet root.modules k = some id := hk
    rw [hroot] at hk
    simp [omapGet] at hk

/-! ## Module-block reuse (claim C4 branch lemmas) -/

theorem c4_branch_cached (refs : RefManager) (fileName : String) (s : PState)
    (name : String) (stmts : List Stmt) (pos : LineCol) (id : Nat)
    (hv : Valid s) (hc : omapGet s.namespaceCache name = some id) :
    omapGet (preparerStep refs fileName s
      (.moduleDecl name (some stmts) pos)).namespaceCache name = some id ∧
    omapGet (getMod (preparerStep refs fileName s
      (.moduleDecl name (some stmts) pos)) s.currentModule).modules name = some id := by
  simp only [preparerStep, hc]
  refine ⟨?_, ?_⟩
  · exact cache_after_prepOut name id _ _ (preparerList_props refs fileName _ stmts)
      (omapGet_set_eq _ _ _)
  · have hentry2 : omapGet (getMod (setMod s s.currentModule
        { getMod s s.currentModule with
          modules := omapSet (getMod s s.currentModule).modules name id })
        s.currentModule).modules name = some id := by
      rw [getMod_setMod_self]
      exact omapGet_set_eq _ _ _
    refine preparer_modentry_list refs fileName _ stmts name id s.currentModule ?_ ?_ hentry2
    · exact hv.2.1
    · exact omapGet_set_eq _ _ _

theorem c4_branch_alloc (refs : RefManager) (fileName : String) (s : PState)
    (name : String) (stmts : List Stmt) (pos : LineCol)
    (hv : Valid s) (hc : omapGet s.namespaceCache name = none) :
    omapGet (preparerStep refs fileName s
      (.moduleDecl name (some stmts) pos)).namespaceCache name = some s.next ∧
    omapGet (getMod (preparerStep refs fileName s
      (.moduleDecl name (some stmts) pos)) s.currentModule).modules name = some s.next := by
  simp only [preparerStep, hc, allocMod]
  refine ⟨?_, ?_⟩
  · exact cache_after_prepOut name s.next _ _ (preparerList_props refs fileName _ stmts)
      (omapGet_set_eq _ _ _)
  · have hentry2 : omapGet (getMod (setMod
        (allocMod s (createModule name false
          ((getLOC (getMod s s.currentModule) pos fileName false).sourceFile) true)).2
        s.currentModule
        { getMod (allocMod s (createModule name false
            ((getLOC (getMod s s.currentModule) pos fileName false).sourceFile) true)).2
            s.currentModule with
          modules := omapSet (getMod (allocMod s (createModule name false
            ((getLOC (getMod s s.currentModule) pos fileName false).sourceFile) true)).2
            s.currentModule).modules name s.next })
        s.currentModule).modules name = some s.next := by
      rw [getMod_setMod_self]
      exact omapGet_set_eq _ _ _
    refine preparer_modentry_list refs fileName _ stmts name s.next s.currentModule ?_ ?_ hentry2
    · exact Nat.lt_succ_of_lt hv.2.1
    · exact omapGet_set_eq _ _ _

/-! ## Claims -/

/-- C1: for every type-syntax node whose syntactic form is not one of the
forms explicitly enumerated by the type resolver, `resolveType` never
fails: the node is an unenumerated-form node and the result is a
stringified-unknown `Type` whose stored name equals the node's raw source
text. -/
theorem c1_unenumerated_type_syntax_degrades (refs : RefManager) (t : TypeNode)
    (h : enumeratedForm t = false) :
    ∃ kindName text, t = TypeNode.other kindName text ∧
      resolveType refs t = Type'.plain text TypeKinds.STRINGIFIED_UNKNOWN := by
  cases t
  case other kindName text => exact ⟨kindName, text, rfl, rfl⟩
  all_goals exact absurd h (by simp [enumeratedForm])

/-- Witness for C1 at a conditional-type node. -/
theorem c1_unenumerated_type_syntax_degrades_witness :
    enumeratedForm (TypeNode.other "ConditionalType" "T extends U ? A : B") = false ∧
    resolveType emptyRefs (TypeNode.other "ConditionalType" "T extends U ? A : B") =
      Type'.plain "T extends U ? A : B" TypeKinds.STRINGIFIED_UNKNOWN := by
  refine ⟨rfl, ?_⟩
  obtain ⟨k, tx, heq, hres⟩ := c1_unenumerated_type_syntax_degrades emptyRefs
    (TypeNode.other "ConditionalType" "T extends U ? A : B") rfl
  injection heq with h1 h2
  subst h1
  subst h2
  exact hres

/-- C2: a Visit-phase type-alias whose name Prepare has not registered
fails hard in `handleTypeDeclaration` (no silent skip); conversely, when
Prepare has run over the same statements of the same file first, the whole
Visit phase (hence every `handleTypeDeclaration` lookup) succeeds. -/
theorem c2_type_alias_skeleton_lookup (refs : RefManager) :
    (∀ (fileName : String) (s : PState) (name : String) (ty : TypeNode),
      omapGet (getMod s s.currentModule).types name = none →
      handleTypeDeclaration refs fileName s name ty =
        .error "TypeError: cannot set properties of undefined") ∧
    (∀ (s : PState) (file : SourceFile), Valid s → WfList file.statements →
      ∃ s', runOnFile refs (runPreparerOnFile refs s file) file = .ok s') := by
  constructor
  · intro fileName s name ty h
    simp only [handleTypeDeclaration, h]
  · intro s file hv hw
    obtain ⟨hcache, hready⟩ := runPreparer_out refs s file hv hw
    obtain ⟨s', hs', _⟩ := visitor_success_list refs file.fileName
      { runPreparerOnFile refs s file with
        currentModule := (moduleFromFile s file.fileName).1 }
      file.statements hready
    refine ⟨s', ?_⟩
    simp only [runOnFile, hcache, hs']

/-- Witness for C2: the unregistered lookup fails on the empty initial
state, and Prepare-then-Visit of a one-alias file succeeds. -/
theorem c2_type_alias_skeleton_lookup_witness :
    (handleTypeDeclaration emptyRefs "src/a.ts" initState "A" (.keyword .numberKw) =
      .error "TypeError: cannot set properties of undefined") ∧
    (∃ s', runOnFile emptyRefs
      (runPreparerOnFile emptyRefs initState
        { fileName := "src/a.ts",
          statements := [.typeAliasDecl "A" none (.keyword .numberKw) [] ⟨0, 0⟩] })
      { fileName := "src/a.ts",
        statements := [.typeAliasDecl "A" none (.keyword .numberKw) [] ⟨0, 0⟩] } = .ok s') := by
  constructor
  · exact (c2_type_alias_skeleton_lookup emptyRefs).1 "src/a.ts" initState "A"
      (.keyword .numberKw) rfl
  · exact (c2_type_alias_skeleton_lookup emptyRefs).2 initState _
      (valid_simple_init (createModule "root" false none) "src" rfl) ⟨trivial, trivial⟩

/-- C3: preparing an enum declaration whose name already has an entry
appends the new location and the new members to the existing entry, never
replacing its other fields. -/
theorem c3_enum_redeclaration_merges (refs : RefManager) (fileName : String) (s : PState)
    (name : String) (mods : Option (List Modifier)) (members : List EnumMemberNode)
    (jsDoc : List JSDocNode) (pos : LineCol) (existing : EnumDecl)
    (h : omapGet (getMod s s.currentModule).enums name = some existing) :
    omapGet (getMod (preparerStep refs fileName s
      (.enumDecl name mods members jsDoc pos)) s.currentModule).enums name =
      some { existing with
        loc := existing.loc ++ [getLOC (getMod s s.currentModule) pos fileName],
        members := existing.members ++ members.map (fun em =>
          ({ name := em.nameText,
             initializer := em.initializer.map (resolveExpressionToType refs),
             loc := getLOC (getMod s s.currentModule) em.pos fileName } : EnumMemberDecl)) } := by
  simp only [preparerStep, h]
  rw [getMod_updCurrent_self]
  dsimp only
  rw [omapGet_set_eq]

/-- Witness for C3: declaring `Color` with `{Red}` then `{Blue}` yields one
entry with members `[Red, Blue]` and two locations. -/
theorem c3_enum_redeclaration_merges_witness :
    omapGet (getMod (preparerStep emptyRefs "f.ts"
      (preparerStep emptyRefs "f.ts" initState
        (.enumDecl "Color" none [⟨"Red", none, ⟨0, 2⟩⟩] [] ⟨0, 0⟩))
      (.enumDecl "Color" none [⟨"Blue", none, ⟨1, 2⟩⟩] [] ⟨1, 0⟩)) 0).enums "Color" =
      some { name := "Color", isConst := false,
             members := [⟨"Red", none, ⟨⟨0, 2⟩, none⟩⟩, ⟨"Blue", none, ⟨⟨1, 2⟩, none⟩⟩],
             loc := [⟨⟨0, 0⟩, none⟩, ⟨⟨1, 0⟩, none⟩], jsDoc := none, isExported := none } :=
  c3_enum_redeclaration_merges emptyRefs "f.ts"
    (preparerStep emptyRefs "f.ts" initState
      (.enumDecl "Color" none [⟨"Red", none, ⟨0, 2⟩⟩] [] ⟨0, 0⟩))
    "Color" none [⟨"Blue", none, ⟨1, 2⟩⟩] [] ⟨1, 0⟩
    { name := "Color", isConst := false,
      members := [⟨"Red", none, ⟨⟨0, 2⟩, none⟩⟩],
      loc := [⟨⟨0, 0⟩, none⟩], jsDoc := none, isExported := none } rfl

/-- C4: preparing a module block reuses the cached namespace module for an
already-seen name (same identifier in the cache and in the enclosing
module's child map), and creates and caches a fresh one on first
encounter. -/
theorem c4_namespace_module_reuse (refs : RefManager) (fileName : String) (s : PState)
    (name : String) (stmts : List Stmt) (pos : LineCol) (hv : Valid s) :
    (∀ id, omapGet s.namespaceCache name = some id →
      omapGet (preparerStep refs fileName s
        (.moduleDecl name (some stmts) pos)).namespaceCache name = some id ∧
      omapGet (getMod (preparerStep refs fileName s
        (.moduleDecl name (some stmts) pos)) s.currentModule).modules name = some id) ∧
    (omapGet s.namespaceCache name = none →
      omapGet (preparerStep refs fileName s
        (.moduleDecl name (some stmts) pos)).namespaceCache name = some s.next ∧
      omapGet (getMod (preparerStep refs fileName s
        (.moduleDecl name (some stmts) pos)) s.currentModule).modules name = some s.next) :=
  ⟨fun id hc => c4_branch_cached refs fileName s name stmts pos id hv hc,
   fun hc => c4_branch_alloc refs fileName s name stmts pos hv hc⟩

/-- Witness for C4: the second encounter of namespace `N` reuses module 1
(no new allocation) and links the same identifier into the parent. -/
theorem c4_namespace_module_reuse_witness :
    omapGet (preparerStep emptyRefs "g.ts"
      (preparerStep emptyRefs "f.ts" initState (.moduleDecl "N" (some []) ⟨0, 0⟩))
      (.moduleDecl "N" (some []) ⟨5, 0⟩)).namespaceCache "N" = some 1 ∧
    omapGet (getMod (preparerStep emptyRefs "g.ts"
      (preparerStep emptyRefs "f.ts" initState (.moduleDecl "N" (some []) ⟨0, 0⟩))
      (.moduleDecl "N" (some []) ⟨5, 0⟩)) 0).modules "N" = some 1 ∧
    (preparerStep emptyRefs "g.ts"
      (preparerStep emptyRefs "f.ts" initState (.moduleDecl "N" (some []) ⟨0, 0⟩))
      (.moduleDecl "N" (some []) ⟨5, 0⟩)).next = 2 := by
  have hv1 : Valid (preparerStep emptyRefs "f.ts" initState (.moduleDecl "N" (some []) ⟨0, 0⟩)) :=
    (preparer_props emptyRefs "f.ts" initState _).2.2.2.2
      (valid_simple_init (createModule "root" false none) "src" rfl)
  have h := (c4_namespace_module_reuse emptyRefs "g.ts"
    (preparerStep emptyRefs "f.ts" initState (.moduleDecl "N" (some []) ⟨0, 0⟩))
    "N" [] ⟨5, 0⟩ hv1).1 1 rfl
  exact ⟨h.1, h.2, rfl⟩

/-- C5: a constant initializer's text is stored verbatim up to 256
characters (inclusive), truncated to the first 256 characters plus the
`"..."` marker beyond that, always within 256 characters plus the marker;
and `constantOfDeclarator` stores exactly this truncation of the
initializer's text. -/
theorem c5_constant_truncation (text : String) :
    (jsLength text ≤ 256 → contentOf text = text) ∧
    (257 ≤ jsLength text → contentOf text = jsSlice0 text 256 ++ "...") ∧
    jsLength (contentOf text) ≤ 256 + jsLength "..." ∧
    (∀ (refs : RefManager) (fileName : String) (m : ModuleData) (jsDoc : List JSDocNode)
      (nameText : String) (ty : Option TypeNode) (pos : LineCol) (e : Expression),
      constantOfDeclarator refs fileName m jsDoc
        { nameText := nameText, type := ty, initializer := some e, pos := pos } =
        some { name := nameText, loc := getLOC m pos fileName,
               type := ty.map (resolveType refs),
               content := contentOf (exprText e),
               jsDoc := getJSDocData refs jsDoc }) := by
  refine ⟨?_, ?_, ?_, ?_⟩
  · intro h
    unfold contentOf
    rw [if_neg (by omega)]
  · intro h
    unfold contentOf
    rw [if_pos (by omega)]
  · have h3 : jsLength "..." = 3 := rfl
    by_cases h : 256 < jsLength text
    · unfold contentOf
      rw [if_pos h]
      have he : jsSlice0 text 256 = String.mk (text.data.take 256) := rfl
      rw [he, jsLength_mk_append, List.length_take]
      have hmin := Nat.min_le_left 256 text.data.length
      omega
    · unfold contentOf
      rw [if_neg h]
      omega
  · intro refs fileName m jsDoc nameText ty pos e
    rfl

set_option maxRecDepth 8000 in
/-- Witness for C5 at texts of exactly 256 and 257 characters. -/
theorem c5_constant_truncation_witness :
    jsLength (String.mk (List.replicate 256 'a')) ≤ 256 ∧
    contentOf (String.mk (List.replicate 256 'a')) = String.mk (List.replicate 256 'a') ∧
    257 ≤ jsLength (String.mk (List.replicate 257 'a')) ∧
    contentOf (String.mk (List.replicate 257 'a')) =
      jsSlice0 (String.mk (List.replicate 257 'a')) 256 ++ "..." := by
  refine ⟨?_, ?_, ?_, ?_⟩
  · simp [jsLength]
  · exact (c5_constant_truncation _).1 (by simp [jsLength])
  · simp [jsLength]
  · exact (c5_constant_truncation _).2.1 (by simp [jsLength])

/-- C6: serializing a module tree replaces every named-map collection by
the array of its values in insertion order (children serialized
recursively), and the combined element count of the declaration arrays at
every depth equals the total number of declarations in the tree. -/
theorem c6_serialization_shape (m : ModuleTree) :
    countJSON (moduleToJSON m) = countTree m ∧
    (moduleToJSON m).classes = omapValues m.classes ∧
    (moduleToJSON m).interfaces = omapValues m.interfaces ∧
    (moduleToJSON m).enums = omapValues m.enums ∧
    (moduleToJSON m).types = omapValues m.types ∧
    (moduleToJSON m).functions = omapValues m.functions ∧
    (moduleToJSON m).modules = (omapValues m.modules).map moduleToJSON := by
  refine ⟨countJSON_moduleToJSON m, ?_⟩
  cases m with
  | mk name repo isNs cls ifs ens tys fns cons mods =>
    exact ⟨rfl, rfl, rfl, rfl, rfl, moduleToJSONList_eq_map mods⟩

/-- C7: visiting a function declaration appends a fresh signature to an
existing entry of the same name, creates a single-signature entry
otherwise, and leaves exactly one entry per function name. -/
theorem c7_function_overload_single_entry (refs : RefManager) (fileName : String)
    (s : PState) (name? : Option String) (tps : Option (List TypeParameterDecl))
    (params : List ParameterDecl) (ty : Option TypeNode)
    (csig : Option InferredSignature) (jsDoc : List JSDocNode) (pos : LineCol) :
    (∀ fn, omapGet (getMod s s.currentModule).functions (prepareNameKey name?) = some fn →
      omapGet (getMod (handleFunctionDeclaration refs fileName s name? tps params ty csig jsDoc pos)
        s.currentModule).functions (prepareNameKey name?) =
        some { fn with signatures := fn.signatures ++
          [{ name := name?,
             parameters := resolveParameterList refs params,
             typeParameters := resolveGenericsArgs refs tps,
             returnType := resolveReturnType refs ty csig,
             loc := getLOC (getMod s s.currentModule) pos fileName,
             jsDoc := getJSDocData refs jsDoc }] }) ∧
    (omapGet (getMod s s.currentModule).functions (prepareNameKey name?) = none →
      omapGet (getMod (handleFunctionDeclaration refs fileName s name? tps params ty csig jsDoc pos)
        s.currentModule).functions (prepareNameKey name?) =
        some { name := prepareNameKey name?,
               signatures := [
                 { name := name?,
                   parameters := resolveParameterList refs params,
                   typeParameters := resolveGenericsArgs refs tps,
                   returnType := resolveReturnType refs ty csig,
                   loc := getLOC (getMod s s.currentModule) pos fileName,
                   jsDoc := getJSDocData refs jsDoc }],
               loc := getLOC (getMod s s.currentModule) pos fileName,
               jsDoc := getJSDocData refs jsDoc }) ∧
    (omapCountKey (getMod s s.currentModule).functions (prepareNameKey name?) ≤ 1 →
      omapCountKey (getMod (handleFunctionDeclaration refs fileName s name? tps params ty csig jsDoc pos)
        s.currentModule).functions (prepareNameKey name?) = 1) := by
  refine ⟨?_, ?_, ?_⟩
  · intro fn hfn
    simp only [handleFunctionDeclaration, hfn]
    rw [getMod_updCurrent_self]
    dsimp only
    rw [omapGet_set_eq]
  · intro hnone
    simp only [handleFunctionDeclaration, hnone]
    rw [getMod_updCurrent_self]
    dsimp only
    rw [omapGet_set_eq]
  · intro hle
    rcases hx : omapGet (getMod s s.currentModule).functions (prepareNameKey name?) with _ | fn
    · simp only [handleFunctionDeclaration, hx]
      rw [getMod_updCurrent_self]
      dsimp only
      rw [omapCountKey_set_of_none _ _ _ hx, omapCountKey_zero_of_none _ _ hx]
    · have hp := omapCountKey_pos_of_isSome (getMod s s.currentModule).functions
        (prepareNameKey name?) (by rw [hx]; rfl)
      simp only [handleFunctionDeclaration, hx]
      rw [getMod_updCurrent_self]
      dsimp only
      rw [omapCountKey_set_of_isSome _ _ _ (by rw [hx]; rfl)]
      omega

/-- Witness for C7: visiting `f` twice yields one entry with both
signatures. -/
theorem c7_function_overload_single_entry_witness :
    omapGet (getMod (handleFunctionDeclaration emptyRefs "f.ts"
      (handleFunctionDeclaration emptyRefs "f.ts" initState (some "f") none [] none none [] ⟨0, 0⟩)
      (some "f") none [] none none [] ⟨1, 0⟩) 0).functions "f" =
      some { name := "f",
             signatures := [
               { name := some "f", parameters := [], typeParameters := none,
                 returnType := none, loc := ⟨⟨0, 0⟩, none⟩, jsDoc := none },
               { name := some "f", parameters := [], typeParameters := none,
                 returnType := none, loc := ⟨⟨1, 0⟩, none⟩, jsDoc := none }],
             loc := ⟨⟨0, 0⟩, none⟩, jsDoc := none } ∧
    omapCountKey (getMod (handleFunctionDeclaration emptyRefs "f.ts"
      (handleFunctionDeclaration emptyRefs "f.ts" initState (some "f") none [] none none [] ⟨0, 0⟩)
      (some "f") none [] none none [] ⟨1, 0⟩) 0).functions "f" = 1 := by
  have h := c7_function_overload_single_entry emptyRefs "f.ts"
    (handleFunctionDeclaration emptyRefs "f.ts" initState (some "f") none [] none none [] ⟨0, 0⟩)
    (some "f") none [] none none [] ⟨1, 0⟩
  refine ⟨?_, h.2.2 (by decide)⟩
  exact h.1
    { name := "f",
      signatures := [{ name := some "f", parameters := [], typeParameters := none,
                       returnType := none, loc := ⟨⟨0, 0⟩, none⟩, jsDoc := none }],
      loc := ⟨⟨0, 0⟩, none⟩, jsDoc := none } rfl

/-- C8 counterexample: for a namespace current module with no repository
configured, the locator is not absent — it is the string
`"undefined#L1"`, because the template literal renders the unset
repository as text. -/
theorem c8_namespace_locator_counterexample :
    ({ name := "N", repository := none, isNamespace := true } : ModuleData).repository = none ∧
    (getLOC { name := "N", repository := none, isNamespace := true } ⟨0, 0⟩ "a.ts" true).sourceFile =
      some "undefined#L1" :=
  ⟨rfl, rfl⟩

/-- C8 (amended): for a non-namespace current module with no repository
configured the locator is absent; for a namespace current module the
locator is always present and anchors on the namespace's repository
identifier rendered as a template literal with a 1-based line suffix. -/
theorem c8_locator_absence_amended (m : ModuleData) (pos : LineCol) (fileName : String)
    (includeLine : Bool) :
    (m.isNamespace = false → m.repository = none →
      (getLOC m pos fileName includeLine).sourceFile = none) ∧
    (m.isNamespace = true →
      (getLOC m pos fileName includeLine).sourceFile =
        some (jsTemplateStr m.repository ++ "#L" ++ toString (pos.line + 1))) := by
  constructor
  · intro hns hrepo
    simp [getLOC, hns, hrepo, jsAndStr]
  · intro hns
    simp [getLOC, hns]

/-- Witness for C8 (amended). -/
theorem c8_locator_absence_amended_witness :
    (getLOC { name := "root", repository := none, isNamespace := false }
      ⟨2, 0⟩ "a.ts" true).sourceFile = none ∧
    (getLOC { name := "N", repository := some "repo/N", isNamespace := true }
      ⟨2, 0⟩ "a.ts" true).sourceFile = some "repo/N#L3" := by
  constructor
  · exact (c8_locator_absence_amended
      { name := "root", repository := none, isNamespace := false } ⟨2, 0⟩ "a.ts" true).1 rfl rfl
  · exact (c8_locator_absence_amended
      { name := "N", repository := some "repo/N", isNamespace := true } ⟨2, 0⟩ "a.ts" true).2 rfl

/-- C9: `getLastItemFromPath` searches only for the backslash separator,
so a backslash-free input is returned unchanged; consequently the locator
of a non-namespace module embeds a forward-slash file path in full after
the repository base. -/
theorem c9_forward_slash_paths_preserved :
    (∀ s : String, (∀ c ∈ s.data, c ≠ '\\') → getLastItemFromPath s = s) ∧
    (∀ (m : ModuleData) (pos : LineCol) (fileName r : String),
      m.isNamespace = false → m.repository = some r → r ≠ "" →
      (∀ c ∈ fileName.data, c ≠ '\\') →
      (getLOC m pos fileName true).sourceFile =
        some (r ++ "/" ++ fileName ++ ("#L" ++ toString (pos.line + 1)))) := by
  refine ⟨getLastItemFromPath_no_backslash, ?_⟩
  intro m pos fileName r hns hrepo hr hnb
  simp [getLOC, hns, hrepo, jsAndStr, jsTemplateStr, hr,
    getLastItemFromPath_no_backslash fileName hnb]

/-- Witness for C9 at a forward-slash path. -/
theorem c9_forward_slash_paths_preserved_witness :
    getLastItemFromPath "src/extractor/index.ts" = "src/extractor/index.ts" ∧
    (getLOC { name := "root", repository := some "https://repo", isNamespace := false }
      ⟨4, 0⟩ "src/extractor/index.ts" true).sourceFile =
      some ("https://repo" ++ "/" ++ "src/extractor/index.ts" ++ ("#L" ++ toString (4 + 1))) := by
  constructor
  · exact c9_forward_slash_paths_preserved.1 "src/extractor/index.ts" (by decide)
  · exact c9_forward_slash_paths_preserved.2
      { name := "root", repository := some "https://repo", isNamespace := false }
      ⟨4, 0⟩ "src/extractor/index.ts" "https://repo" rfl rfl (by decide) (by decide)

/-- C10: preparing a class declaration inserts the fresh skeleton with an
unconditional overwrite — the resulting entry is exactly the new skeleton
regardless of any existing entry, and an existing entry is replaced
without growing the map. -/
theorem c10_class_skeleton_overwrite (refs : RefManager) (fileName : String) (s : PState)
    (name : Option String) (mods : Option (List Modifier))
    (tps : Option (List TypeParameterDecl)) (members : List ClassMember)
    (her : Option (List HeritageClauseNode)) (jsDoc : List JSDocNode) (pos : LineCol) :
    omapGet (getMod (preparerStep refs fileName s
      (.classDecl name mods tps members her jsDoc pos)) s.currentModule).classes
      (prepareNameKey name) =
      some { name := prepareNameKey name, typeParameters := some [], properties := [],
             methods := [], loc := getLOC (getMod s s.currentModule) pos fileName,
             ctor := none, isAbstract := hasModifier mods .abstractKw,
             jsDoc := getJSDocData refs jsDoc,
             isExported := hasModifier mods .exportKw } ∧
    ((omapGet (getMod s s.currentModule).classes (prepareNameKey name)).isSome = true →
      omapCountKey (getMod (preparerStep refs fileName s
        (.classDecl name mods tps members her jsDoc pos)) s.currentModule).classes
        (prepareNameKey name) =
        omapCountKey (getMod s s.currentModule).classes (prepareNameKey name)) := by
  constructor
  · simp only [preparerStep]
    rw [getMod_updCurrent_self]
    dsimp only
    rw [omapGet_set_eq]
  · intro h
    simp only [preparerStep]
    rw [getMod_updCurrent_self]
    dsimp only
    rw [omapCountKey_set_of_isSome _ _ _ h]

/-- Witness for C10: re-preparing class `C` replaces the first skeleton
entirely, keeping a single entry. -/
theorem c10_class_skeleton_overwrite_witness :
    omapGet (getMod (preparerStep emptyRefs "f.ts"
      (preparerStep emptyRefs "f.ts" initState (.classDecl (some "C") none none [] none [] ⟨0, 0⟩))
      (.classDecl (some "C") (some [.abstractKw]) none [] none [] ⟨3, 0⟩)) 0).classes "C" =
      some { name := "C", typeParameters := some [], properties := [], methods := [],
             loc := ⟨⟨3, 0⟩, none⟩, ctor := none, isAbstract := some true,
             jsDoc := none, isExported := some false } ∧
    omapCountKey (getMod (preparerStep emptyRefs "f.ts"
      (preparerStep emptyRefs "f.ts" initState (.classDecl (some "C") none none [] none [] ⟨0, 0⟩))
      (.classDecl (some "C") (some [.abstractKw]) none [] none [] ⟨3, 0⟩)) 0).classes "C" = 1 := by
  have h := c10_class_skeleton_overwrite emptyRefs "f.ts"
    (preparerStep emptyRefs "f.ts" initState (.classDecl (some "C") none none [] none [] ⟨0, 0⟩))
    (some "C") (some [.abstractKw]) none [] none [] ⟨3, 0⟩
  exact ⟨h.1, (h.2 rfl).trans rfl⟩

end TSE